import Mathlib

/-!
Verification of the response-normalization core of the QA test-case
generator: the prompt builder (`createPrompt`), the resilient JSON
repair parser (`robustJsonParse`), the service entry point
(`generateTestCases`), and the export-side field defaulting
(`handleDownloadExcel`'s row construction).

The JavaScript string primitives used by the source (`trim`, `indexOf`,
`lastIndexOf`, `substring`, `slice`, `startsWith`, `endsWith`,
`includes`) are embedded as functions on `List Char`, and `JSON.parse`
is embedded as a fuel-indexed recursive-descent parser for the JSON
grammar (objects, arrays, strings with escapes, numbers, literals,
with strict trailing-garbage rejection, as `JSON.parse` does).
-/

/-- JSON/JS whitespace recognized by `JSON.parse` and (for the
characters that occur in practice) by `String.prototype.trim`:
space, tab, line feed, carriage return. -/
def isWsChar (c : Char) : Bool :=
  c = ' ' || c = '\t' || c = '\n' || c = '\r'

/-- Drop leading whitespace (the scanner used between JSON tokens). -/
def skipWs : List Char → List Char
  | [] => []
  | c :: l => if isWsChar c then skipWs l else c :: l

/-- `String.prototype.trim`, left half. -/
def jsTrimL (l : List Char) : List Char := l.dropWhile isWsChar

/-- `String.prototype.trim`, right half. -/
def jsTrimR (l : List Char) : List Char := (l.reverse.dropWhile isWsChar).reverse

/-- `String.prototype.trim`. -/
def jsTrim (l : List Char) : List Char := jsTrimR (jsTrimL l)

/-- String-level `String.prototype.trim`, used by the input validation
checks (`prdText.trim()`, `figmaLink.trim()`). -/
def jsTrimS (s : String) : String := String.mk (jsTrim s.data)

/-- JSON values as produced by `JSON.parse`. Numbers keep their literal
text (the claims under verification never inspect numeric magnitude).
Objects keep their key/value pairs in source order; JavaScript
duplicate-key semantics (last binding wins) is applied at lookup time
by `lookupLast`. -/
inductive Json where
  | null : Json
  | bool : Bool → Json
  | num : String → Json
  | str : String → Json
  | arr : List Json → Json
  | obj : List (String × Json) → Json

/-- Value of one hex digit, or `none`. -/
def hexVal (c : Char) : Option Nat :=
  if '0' ≤ c ∧ c ≤ '9' then some (c.toNat - 48)
  else if 'a' ≤ c ∧ c ≤ 'f' then some (c.toNat - 87)
  else if 'A' ≤ c ∧ c ≤ 'F' then some (c.toNat - 55)
  else none

/-- The character denoted by a single-character escape, or `none` if
the escape is invalid. -/
def escChar (e : Char) : Option Char :=
  if e = '"' then some '"'
  else if e = '\\' then some '\\'
  else if e = '/' then some '/'
  else if e = 'b' then some (Char.ofNat 8)
  else if e = 'f' then some (Char.ofNat 12)
  else if e = 'n' then some '\n'
  else if e = 'r' then some '\r'
  else if e = 't' then some '\t'
  else none

/-- Body of a JSON string literal: consume characters up to the closing
quote, decoding escapes (`\uXXXX` included); reject unescaped control
characters, as `JSON.parse` does. Returns the decoded characters and
the rest of the input after the closing quote. -/
def parseStringBody : List Char → Option (List Char × List Char)
  | [] => none
  | c :: l =>
    if c = '"' then some ([], l)
    else if c = '\\' then
      match l with
      | [] => none
      | e :: l1 =>
        if e = 'u' then
          match l1 with
          | h1 :: h2 :: h3 :: h4 :: l2 =>
            match hexVal h1, hexVal h2, hexVal h3, hexVal h4 with
            | some a, some b, some x, some d =>
              (parseStringBody l2).map
                (fun p => (Char.ofNat (((a * 16 + b) * 16 + x) * 16 + d) :: p.1, p.2))
            | _, _, _, _ => none
          | _ => none
        else
          match escChar e with
          | some d => (parseStringBody l1).map (fun p => (d :: p.1, p.2))
          | none => none
    else if c.toNat < 32 then none
    else (parseStringBody l).map (fun p => (c :: p.1, p.2))

/-- Maximal run of decimal digits, with the remaining input. -/
def digitSpan (l : List Char) : List Char × List Char :=
  (l.takeWhile Char.isDigit, l.dropWhile Char.isDigit)

/-- JSON integer part: a single `0`, or a nonzero digit followed by any
digits. -/
def parseIntPart : List Char → Option (List Char × List Char)
  | [] => none
  | c :: t =>
    if c = '0' then some (['0'], t)
    else if c.isDigit then
      let (ds, r) := digitSpan t
      some (c :: ds, r)
    else none

/-- After `e`/`E`: an optional sign and at least one digit. -/
def expDigits : List Char → Option (List Char × List Char)
  | [] => none
  | c :: t =>
    if c = '+' ∨ c = '-' then
      let (ds, t2) := digitSpan t
      if ds = [] then none else some (c :: ds, t2)
    else
      let (ds, t2) := digitSpan (c :: t)
      if ds = [] then none else some (ds, t2)

/-- Optional JSON exponent part (`e`/`E`, optional sign, digits). -/
def expPart : List Char → Option (List Char × List Char)
  | [] => some ([], [])
  | c :: t =>
    if c = 'e' ∨ c = 'E' then
      (expDigits t).map (fun p => (c :: p.1, p.2))
    else some ([], c :: t)

/-- Optional JSON fraction part (`.` followed by at least one digit),
then the exponent part. -/
def fracExpPart : List Char → Option (List Char × List Char)
  | [] => expPart []
  | c :: t =>
    if c = '.' then
      let (ds, r) := digitSpan t
      if ds = [] then none
      else (expPart r).map (fun p => ('.' :: ds ++ p.1, p.2))
    else expPart (c :: t)

/-- A JSON number literal at the head of the input: optional minus,
integer part, optional fraction, optional exponent. Returns the literal
characters and the rest. -/
def parseNumberAt : List Char → Option (List Char × List Char)
  | [] => none
  | c :: t =>
    if c = '-' then
      match parseIntPart t with
      | none => none
      | some (ip, r) => (fracExpPart r).map (fun p => ('-' :: ip ++ p.1, p.2))
    else
      match parseIntPart (c :: t) with
      | none => none
      | some (ip, r) => (fracExpPart r).map (fun p => (ip ++ p.1, p.2))

/-- The three mutually recursive parsing functions at one fuel level:
a JSON value, the items of an array after `[` (first item onward), and
the members of an object after `{` (first member onward). -/
structure JsonParsers where
  val : List Char → Option (Json × List Char)
  arrRest : List Char → Option (List Json × List Char)
  objRest : List Char → Option (List (String × Json) × List Char)

/-- Zero-fuel parsers: always fail. -/
def parsersZero : JsonParsers where
  val _ := none
  arrRest _ := none
  objRest _ := none

/-- One more fuel level on top of `p`. Each branch consumes input
before re-entering `p`, so fuel `2 * length + 4` is always enough for
an input of the given length. -/
def parsersSucc (p : JsonParsers) : JsonParsers where
  val l :=
    match skipWs l with
    | [] => none
    | c :: r =>
      if c = '"' then (parseStringBody r).map (fun q => (Json.str (String.mk q.1), q.2))
      else if c = '[' then
        match skipWs r with
        | ']' :: r2 => some (Json.arr [], r2)
        | _ => (p.arrRest r).map (fun q => (Json.arr q.1, q.2))
      else if c = '{' then
        match skipWs r with
        | '}' :: r2 => some (Json.obj [], r2)
        | _ => (p.objRest r).map (fun q => (Json.obj q.1, q.2))
      else if c = 'n' then
        match r with
        | 'u' :: 'l' :: 'l' :: r2 => some (Json.null, r2)
        | _ => none
      else if c = 't' then
        match r with
        | 'r' :: 'u' :: 'e' :: r2 => some (Json.bool true, r2)
        | _ => none
      else if c = 'f' then
        match r with
        | 'a' :: 'l' :: 's' :: 'e' :: r2 => some (Json.bool false, r2)
        | _ => none
      else (parseNumberAt (c :: r)).map (fun q => (Json.num (String.mk q.1), q.2))
  arrRest l :=
    match p.val l with
    | none => none
    | some (v, r) =>
      match skipWs r with
      | ',' :: r2 =>
        match p.arrRest r2 with
        | none => none
        | some (vs, r3) => some (v :: vs, r3)
      | ']' :: r2 => some ([v], r2)
      | _ => none
  objRest l :=
    match skipWs l with
    | '"' :: r =>
      match parseStringBody r with
      | none => none
      | some (k, r1) =>
        match skipWs r1 with
        | ':' :: r2 =>
          match p.val r2 with
          | none => none
          | some (v, r3) =>
            match skipWs r3 with
            | ',' :: r4 =>
              match p.objRest r4 with
              | none => none
              | some (ps, r5) => some ((String.mk k, v) :: ps, r5)
            | '}' :: r4 => some ([(String.mk k, v)], r4)
            | _ => none
        | _ => none
    | _ => none

/-- Fuel-indexed parser family. -/
def parsers : Nat → JsonParsers
  | 0 => parsersZero
  | f + 1 => parsersSucc (parsers f)

/-- Parse one JSON value with the given fuel. -/
def parseValue (f : Nat) : List Char → Option (Json × List Char) := (parsers f).val

/-- Parse array items with the given fuel. -/
def parseArrayRest (f : Nat) : List Char → Option (List Json × List Char) := (parsers f).arrRest

/-- Parse object members with the given fuel. -/
def parseObjRest (f : Nat) : List Char → Option (List (String × Json) × List Char) := (parsers f).objRest

/-- `JSON.parse` on a character list: parse one value and require the
rest of the input to be whitespace. Fuel `2 * length + 4` suffices
because between any two fuel decrements at least one character is
consumed. -/
def parseJson (l : List Char) : Option Json :=
  match parseValue (2 * l.length + 4) l with
  | some (v, rest) => if skipWs rest = [] then some v else none
  | none => none

/-! ## Error messages of the service (verbatim from the source) -/

/-- Thrown by `robustJsonParse` when the text contains no `[`. -/
def notArrayMsg : String :=
  "The AI returned a response that does not appear to be a JSON array."

/-- Thrown by `robustJsonParse` when both repair attempts fail. -/
def malformedMsg : String :=
  "The AI returned a malformed response that could not be parsed. Please try simplifying your request or regenerating."

/-- Thrown by `generateTestCases` when the parsed value is not an array. -/
def formatMsg : String :=
  "The AI response was not in the expected format (a list of test cases)."

/-- Thrown by `generateTestCases` when the model returned empty text. -/
def emptyMsg : String :=
  "Received an empty response from the AI. The model may have refused to answer."

/-- Thrown by `generateTestCases` when PRD text, Figma link and images are all empty. -/
def validationMsg : String :=
  "Please provide at least one input: PRD text, a Figma link, or an image."

/-- Thrown by `getAiInstance` when no API key is configured. -/
def keyMissingMsg : String :=
  "API_KEY is not configured. Please set the API_KEY environment variable in your hosting provider's settings."

/-- Clarified message re-thrown when the underlying error mentions an invalid key. -/
def invalidKeyMsg : String :=
  "The configured API key is invalid. Please check your environment variables."

/-- The invalid-credential signature matched against error messages. -/
def apiKeySig : String := "API key not valid"

/-- Thrown by the single-image variants for an image above the 4MB limit. -/
def sizeMsg : String :=
  "Image file size exceeds the 4MB limit. Please upload a smaller image."

/-! ## Markdown fence stripping and the repair slicing

JavaScript index arithmetic is rendered on lists:
`text.indexOf('[') === -1` is "`[` does not occur";
`text.substring(startIndex, ...)` with `startIndex` the first `[` is
`dropUntilBracket` (the suffix from the first `[`);
`text.lastIndexOf('}') < startIndex` is "no `}` occurs in that suffix"
(the character at `startIndex` is `[`, not `}`); and
`text.substring(startIndex, lastBraceIndex + 1)` is
`takeThroughLastBrace` of that suffix (its prefix through its last `}`). -/

/-- `c` is not `[` (scan predicate for `indexOf('[')`). -/
def notBracketB (c : Char) : Bool := !(c = '[')

/-- `c` is not `}` (scan predicate for `lastIndexOf('}')`). -/
def notBraceB (c : Char) : Bool := !(c = '}')

/-- The suffix of `l` starting at the first `[`, or `none` if `[` does
not occur (`indexOf('[') === -1`). -/
def dropUntilBracket (l : List Char) : Option (List Char) :=
  if l.contains '[' then some (l.dropWhile notBracketB) else none

/-- The prefix of `l` up to and including the last `}`, or `none` if
`}` does not occur. -/
def takeThroughLastBrace (l : List Char) : Option (List Char) :=
  match l.reverse.dropWhile notBraceB with
  | [] => none
  | r => some r.reverse

/-- `text.slice(start, text.endsWith("```") ? -3 : undefined)` for the
two fence widths used by `robustJsonParse` (7 for "```json", 3 for
"```"), followed by `.trim()`. -/
def stripFenceAt (n : Nat) (l : List Char) : List Char :=
  jsTrim (if "```".data.isSuffixOf l then (l.drop n).take (l.length - (n + 3)) else l.drop n)

/-- The fence-stripping prelude of `robustJsonParse`: remove a leading
markdown code fence (with or without the `json` language tag). The
input is the already-trimmed text. -/
def stripFences (l : List Char) : List Char :=
  if "```json".data.isPrefixOf l then stripFenceAt 7 l
  else if "```".data.isPrefixOf l then stripFenceAt 3 l
  else l

/-- The text `robustJsonParse` actually parses: trimmed, fences removed. -/
def stripText (s : String) : List Char := stripFences (jsTrim s.data)

/-- Result of the direct strict parse step of `robustJsonParse`
(`JSON.parse(text)` on the stripped text). -/
def directParse (s : String) : Option Json := parseJson (stripText s)

/-- `Array.isArray(parsed) ? parsed : [parsed]` — the single-object
wrap applied on the repair paths. -/
def wrapArr (v : Json) : Json :=
  match v with
  | Json.arr l => Json.arr l
  | v => Json.arr [v]

/-- The repair ladder of `robustJsonParse`, entered when the direct
parse fails: locate the first `[` (fail with `notArrayMsg` if absent),
return the empty array if no `}` follows it, otherwise parse the slice
through the last `}` with a closing `]` appended, and as a final
attempt the bare slice; fail with `malformedMsg` if both fail. -/
def repairParse (text : List Char) : Except String Json :=
  match dropUntilBracket text with
  | none => Except.error notArrayMsg
  | some tail =>
    match takeThroughLastBrace tail with
    | none => Except.ok (Json.arr [])
    | some seg =>
      match parseJson (seg ++ [']']) with
      | some v => Except.ok (wrapArr v)
      | none =>
        match parseJson seg with
        | some v => Except.ok (wrapArr v)
        | none => Except.error malformedMsg

/-- The robust JSON parser of the service (part_001, current version):
trim, strip markdown fences, try a strict parse, and on failure run the
repair ladder. The direct-parse result is returned as-is (the source
casts it to `TestCase[]` without inspection); the repair paths wrap a
non-array value in a one-element array. -/
def robustJsonParse (s : String) : Except String Json :=
  let text := stripFences (jsTrim s.data)
  match parseJson text with
  | some v => Except.ok v
  | none => repairParse text

/-- The response-normalization pipeline seen by the caller
(`normalizeResponse` of the specification): the empty-response guard
and the `Array.isArray` check of `generateTestCases` around
`robustJsonParse`. Returns the parsed records or the error message. -/
def normalizeResponse (s : String) : Except String (List Json) :=
  if s = "" then Except.error emptyMsg
  else
    match robustJsonParse s with
    | Except.error e => Except.error e
    | Except.ok (Json.arr items) => Except.ok items
    | Except.ok _ => Except.error formatMsg

/-- Whether `p` occurs as a contiguous substring of `l`
(`String.prototype.includes`). -/
def containsSubstrL (p : List Char) : List Char → Bool
  | [] => p.isPrefixOf []
  | c :: t => p.isPrefixOf (c :: t) || containsSubstrL p t

/-- String-level `String.prototype.includes`. -/
def containsSubstr (hay pat : String) : Bool := containsSubstrL pat.data hay.data

/-- Number of positions of `l` at which `m` occurs as a contiguous
substring (occurrences counted at every starting position). -/
def countSub (m : List Char) : List Char → Nat
  | [] => if m.isPrefixOf [] then 1 else 0
  | c :: t => (if m.isPrefixOf (c :: t) then 1 else 0) + countSub m t

/-- String-level occurrence count. -/
def countSubS (hay pat : String) : Nat := countSub pat.data hay.data

/-! ## Prompt construction (`createPrompt`, part_001 current version)

The template literal is transcribed verbatim; `${...}` interpolations
become string concatenation. -/

/-- Section header marker substituted for each empty optional input. -/
def notProvidedMarker : String := "Not provided"

/-- The PRD section of the prompt (`prdSection`). -/
def prdSectionOf (prdText : String) : String :=
  if prdText ≠ "" then
    "**1. Product Requirements Document (PRD) Content:**\n```\n" ++ prdText ++ "\n```"
  else
    "**1. Product Requirements Document (PRD) Content:**\nNot provided."

/-- The Figma section of the prompt (`figmaSection`). -/
def figmaSectionOf (figmaLink : String) : String :=
  if figmaLink ≠ "" then
    "**2. Figma Design Link (for UI/UX reference):**\n" ++ figmaLink
  else
    "**2. Figma Design Link (for UI/UX reference):**\nNot provided."

/-- The images section of the prompt (`imageSection`). -/
def imageSectionOf (imageCount : Nat) : String :=
  if imageCount > 0 then
    "**3. Uploaded Images (" ++ toString imageCount ++ ") (for UI/UX and functional reference):**\nImages have been provided. Analyze them in conjunction with other provided materials to understand the UI, layout, and functionality."
  else
    "**3. Uploaded Images (for UI/UX and functional reference):**\nNot provided."

/-- The focus section of the prompt (`focusSection`). -/
def focusSectionOf (focusPrompt : String) : String :=
  if focusPrompt ≠ "" then
    "**Primary Focus for this Generation:**\n---\n" ++ focusPrompt ++ "\n---\n"
  else ""

/-- Fixed template text before the focus section. -/
def promptIntro : String :=
  "\nYou are an exceptionally meticulous and detail-oriented Senior QA Engineer. Your primary directive is to create the most exhaustive and comprehensive test suite possible from the provided materials.\n\n**Your Mission:**\nScrutinize every line, word, and detail of the provided inputs to identify every possible test scenario. Your goal is to maximize the number of high-quality, relevant test cases to ensure zero defects escape to production.\n\n"

/-- Fixed template text between the focus section and the PRD section. -/
def promptAnalyze : String :=
  "\n\n**Analyze the following inputs with extreme care. Generate test cases based on the information that has been provided:**\n\n"

/-- First third of the fixed template text after the images section
(the task list through the positive/negative/edge categories). -/
def promptTask1 : String :=
  "\n\n**Your Task:**\n1.  **Read Carefully:** Perform a line-by-line analysis of the provided materials. Extract every explicit and implicit requirement, user flow, and constraint from the available inputs.\n2.  **Generate Exhaustively:** Create a comprehensive list of functional and UI/UX test cases that covers every single feature mentioned or inferred. Think about all possible user interactions.\n3.  **Categorize by Type:** For each feature, generate a full spectrum of tests:\n    *   **Positive Test Cases:** Verify the functionality works as expected with valid inputs.\n    *   **Negative Test Cases:** Verify the system handles invalid inputs and error conditions gracefully.\n    *   **Edge/Boundary Cases:** Test the limits and boundaries of input fields and system constraints.\n4.  **Categorize by Domain:** Classify each test case into one of two domains:"

/-- Second third of the fixed template text after the images section
(the domain and suite-type categories). -/
def promptTask2 : String :=
  "\n    *   **Functional:** Focuses on the underlying logic, business rules, calculations, and functionality described in the PRD. (e.g., \"Verify user login with correct credentials\").\n    *   **UI/UX:** Focuses on visual elements, layout, responsiveness, and user interaction based on the Figma design or image. (e.g., \"Verify the login button is blue and in the top-right corner\").\n5.  **Categorize by Suite Type:** Assign each test case to a test suite type:\n    *   **Smoke:** Critical, high-level tests that ensure the main functionalities work. These are the most important tests.\n    *   **Sanity:** Tests that focus on a specific, recently changed, or new area of functionality to ensure it works as expected.\n    *   **Regression:** Comprehensive tests covering existing features to ensure they were not broken by new changes. Most test cases will fall into this category."

/-- Last third of the fixed template text after the images section
(specificity, uniqueness, the formatting rule and the output-format
command). -/
def promptTask3 : String :=
  "\n6.  **Be Specific:** For each test case, you must provide all the fields defined in the schema, including 'domain' and 'suiteType'. 'Test Steps' must be a clear, precise, and easy-to-follow sequence of actions, separated by newlines. 'Expected Result' must be unambiguous.\n7.  **Ensure Uniqueness:** The 'Test Case ID' for each case must be a simple, unique identifier following the format 'TC_XXX', starting from 'TC_001' and incrementing for each subsequent test case (e.g., TC_001, TC_002, TC_003). Do not include extra information like domain or type in the ID.\n\n**Crucial Formatting Rule:** When generating string values for any JSON field, you MUST properly escape all double quotes (\") with a backslash (e.g., \"The user sees a message saying \\\"Success!\\\".\"). This is absolutely critical for the output to be valid JSON.\n\nReturn the output as a JSON array of objects, strictly conforming to the provided JSON schema. Do not include any additional text, explanations, or markdown formatting outside of the JSON array. Your response must be only the raw JSON.\n  "

/-- Fixed template text after the images section (task list, formatting
rule, output-format command), the concatenation of its three thirds. -/
def promptTask : String := promptTask1 ++ promptTask2 ++ promptTask3

/-- `createPrompt` of the current service version: assembles the
instruction text from the four section strings and the fixed template. -/
def createPrompt (prdText figmaLink : String) (imageCount : Nat) (focusPrompt : String) : String :=
  promptIntro ++ focusSectionOf focusPrompt ++ promptAnalyze ++ prdSectionOf prdText
    ++ "\n\n" ++ figmaSectionOf figmaLink ++ "\n\n" ++ imageSectionOf imageCount ++ promptTask

/-! ## The service entry point (`generateTestCases`, part_001 current version) -/

/-- An image attachment. The asynchronous `FileReader` base64 encoding
of the browser is modelled by carrying the encoded data and mime type
as fields; `size` is the byte size checked by the single-image
variants. -/
structure ImageFile where
  size : Nat
  base64 : String
  mimeType : String
deriving DecidableEq

/-- One content part of the generation request. -/
inductive ContentPart where
  | text : String → ContentPart
  | inlineData : String → String → ContentPart

/-- `fileToGenerativePart`: the inline-data part for one image. -/
def fileToGenerativePart (f : ImageFile) : ContentPart :=
  ContentPart.inlineData f.base64 f.mimeType

/-- The parts list of the current (multi-image) variant: the prompt
text first, then every supplied image in input order, with no size
limit. -/
def buildPartsMulti (prompt : String) (imageFiles : List ImageFile) : List ContentPart :=
  ContentPart.text prompt :: imageFiles.map fileToGenerativePart

/-- The request handed to the external generation call. -/
structure GenRequest where
  prompt : String
  parts : List ContentPart

/-- Everything `generateTestCases` (current version) does before the
external call: the `getAiInstance` API-key check, the input validation,
prompt construction and parts assembly. An `Except.ok` value means the
request is about to be issued to the model. -/
def prepareRequest (apiKey : Option String) (prdText figmaLink : String)
    (imageFiles : List ImageFile) (focusPrompt : String) : Except String GenRequest :=
  match apiKey with
  | none => Except.error keyMissingMsg
  | some _ =>
    if jsTrimS prdText = "" ∧ jsTrimS figmaLink = "" ∧ imageFiles = [] then
      Except.error validationMsg
    else
      Except.ok ⟨createPrompt prdText figmaLink imageFiles.length focusPrompt,
        buildPartsMulti (createPrompt prdText figmaLink imageFiles.length focusPrompt) imageFiles⟩

/-- The catch clause of `generateTestCases`: an error whose message
contains the invalid-credential signature is re-thrown with the
clarified message; every other error is re-thrown unchanged. -/
def classifyMsg (e : String) : String :=
  if containsSubstr e apiKeySig then invalidKeyMsg else e

/-- `generateTestCases` (current version), with the awaited external
generation call abstracted as its outcome `callResult` (the response
text, or the transport error message). The try block around the call,
the empty-response guard, `robustJsonParse` and the `Array.isArray`
check all feed the catch clause `classifyMsg`. -/
def generateTestCases (apiKey : Option String) (prdText figmaLink : String)
    (imageFiles : List ImageFile) (focusPrompt : String)
    (callResult : Except String String) : Except String (List Json) :=
  match prepareRequest apiKey prdText figmaLink imageFiles focusPrompt with
  | Except.error e => Except.error e
  | Except.ok _ =>
    match callResult with
    | Except.error e => Except.error (classifyMsg e)
    | Except.ok responseText =>
      match normalizeResponse responseText with
      | Except.error e => Except.error (classifyMsg e)
      | Except.ok items => Except.ok items

/-! ## The single-image service variants

part_001's older version and src/services/geminiService.ts both take a
single optional image and enforce a 4MB size limit before encoding. -/

namespace SingleImage

/-- Parts assembly of the single-image variant in part_001 (older
version): the prompt text, then the image if present — but only after
the 4MB size check; an oversized image aborts before encoding and
before the call. -/
def buildParts (prompt : String) (imageFile : Option ImageFile) : Except String (List ContentPart) :=
  match imageFile with
  | none => Except.ok [ContentPart.text prompt]
  | some f =>
    if f.size > 4 * 1024 * 1024 then Except.error sizeMsg
    else Except.ok [ContentPart.text prompt, fileToGenerativePart f]

end SingleImage

namespace LegacyService

/-- Parts assembly of `generateTestCases` in
src/services/geminiService.ts: same single-image shape and 4MB check. -/
def buildParts (prompt : String) (imageFile : Option ImageFile) : Except String (List ContentPart) :=
  match imageFile with
  | none => Except.ok [ContentPart.text prompt]
  | some f =>
    if f.size > 4 * 1024 * 1024 then Except.error sizeMsg
    else Except.ok [ContentPart.text prompt, fileToGenerativePart f]

end LegacyService

/-! ## Export-side field access (part_002, `handleDownloadExcel`)

The app casts each parsed record to the `TestCase` interface and reads
fields with JavaScript property access and `||` defaulting. -/

/-- JavaScript property lookup on a parsed JSON value: on objects the
last binding of the key wins (later assignments overwrite earlier ones
when `JSON.parse` builds the object); on non-objects the result is
`undefined`, rendered as `none`. -/
def lookupLast : List (String × Json) → String → Option Json
  | [], _ => none
  | (k', v) :: t, k =>
    match lookupLast t k with
    | some r => some r
    | none => if k' = k then some v else none

/-- `tc.field` on a parsed record. -/
def jsField (j : Json) (k : String) : Option Json :=
  match j with
  | Json.obj flds => lookupLast flds k
  | _ => none

/-- JavaScript truthiness of a parsed JSON value. A number literal is
falsy exactly when its mantissa has no nonzero digit (covering `0`,
`-0`, `0.00`, `0e5`; `JSON.parse` cannot produce `NaN`). -/
def jsTruthy (j : Json) : Bool :=
  match j with
  | Json.null => false
  | Json.bool b => b
  | Json.str s => !(s = "")
  | Json.num lit => (lit.data.takeWhile (fun c => c ≠ 'e' ∧ c ≠ 'E')).any (fun c => '1' ≤ c ∧ c ≤ '9')
  | Json.arr _ => true
  | Json.obj _ => true

/-- `x || d` where `x` is a possibly-undefined property read. -/
def jsLor (v : Option Json) (d : Json) : Json :=
  match v with
  | none => d
  | some x => if jsTruthy x then x else d

/-- One worksheet row built by `handleDownloadExcel` (part_002).
Column names in the source: TC_ID, Scenario, pre-condition, test steps,
test data, expected result, domain, priority, test suite type, type,
status. Cells read without `||` keep the raw (possibly undefined)
property. -/
structure ExcelRow where
  tcId : Option Json
  scenario : Option Json
  preCondition : Option Json
  testSteps : Option Json
  testData : Option Json
  expectedResult : Option Json
  domain : Json
  priority : Option Json
  testSuiteType : Json
  caseType : Json
  status : Json

/-- The row construction of `handleDownloadExcel` for one record:
`domain`, `test suite type`, `type` and `status` are defaulted with
`||` to Functional, Regression, Positive and Untested. -/
def excelRowOf (tc : Json) : ExcelRow where
  tcId := jsField tc "testCaseId"
  scenario := jsField tc "testScenario"
  preCondition := jsField tc "preConditions"
  testSteps := jsField tc "testSteps"
  testData := jsField tc "testData"
  expectedResult := jsField tc "expectedResult"
  domain := jsLor (jsField tc "domain") (Json.str "Functional")
  priority := jsField tc "priority"
  testSuiteType := jsLor (jsField tc "suiteType") (Json.str "Regression")
  caseType := jsLor (jsField tc "type") (Json.str "Positive")
  status := jsLor (jsField tc "status") (Json.str "Untested")

/-! ## Canonical flat records and their serialization

The truncation claim quantifies over raw responses that are a JSON
array of complete objects cut off mid-object. Complete objects are
rendered canonically as flat objects with string keys and values over
"simple" characters (no quote, no backslash, no control characters —
exactly the characters `JSON.parse` accepts unescaped inside a string
literal), with no interior whitespace. -/

/-- Characters accepted unescaped inside a JSON string literal. -/
def simpleChar (c : Char) : Bool := c ≠ '"' && c ≠ '\\' && 32 ≤ c.toNat

/-- A string all of whose characters are simple. -/
def simpleStr (s : String) : Bool := s.data.all simpleChar

/-- A flat record: ordered string-valued fields. -/
abbrev FlatRec := List (String × String)

/-- All keys and values of the record are simple strings. -/
def simpleRec (r : FlatRec) : Bool := r.all (fun f => simpleStr f.1 && simpleStr f.2)

/-- One serialized field: `"key":"value"`. -/
def serFieldL (f : String × String) : List Char :=
  '"' :: f.1.data ++ '"' :: ':' :: '"' :: f.2.data ++ ['"']

/-- The serialized members of a record, comma-separated. -/
def serFieldsL : FlatRec → List Char
  | [] => []
  | [f] => serFieldL f
  | f :: fs => serFieldL f ++ ',' :: serFieldsL fs

/-- One serialized record: `{"k":"v",...}`. -/
def serRecL (r : FlatRec) : List Char := '{' :: serFieldsL r ++ ['}']

/-- The serialized elements of an array of records, comma-separated. -/
def serRecsBodyL : List FlatRec → List Char
  | [] => []
  | [r] => serRecL r
  | r :: rs => serRecL r ++ ',' :: serRecsBodyL rs

/-- String form of one serialized record. -/
def serializeRec (r : FlatRec) : String := String.mk (serRecL r)

/-- String form of the serialized elements of an array of records. -/
def serializeRecsBody (objs : List FlatRec) : String := String.mk (serRecsBodyL objs)

/-- The `Json` value a flat record parses to. -/
def jsonOfRec (r : FlatRec) : Json := Json.obj (r.map (fun f => (f.1, Json.str f.2)))

/-- A raw response that is a JSON array truncated mid-object after the
complete objects `objs`: the text is `[`, the serialized complete
objects, a comma, and a fragment `t` that is a proper nonempty prefix
of some serialized object. Being truncated, the text is not valid
JSON, so the direct strict parse step fails. -/
def TruncatedMidObject (input : String) (objs : List FlatRec) (t : String) : Prop :=
  objs ≠ [] ∧ (∀ r ∈ objs, simpleRec r = true) ∧
  input = "[" ++ serializeRecsBody objs ++ "," ++ t ∧
  (∃ r rest, simpleRec r = true ∧ serializeRec r = t ++ rest ∧ rest ≠ "" ∧ t ≠ "") ∧
  directParse input = none

/-- The input class of the boundary claim: the stripped text contains
`[`, and the last `}` (if any) occurs before the first `[` — i.e. no
`}` occurs at or after the first `[`. -/
def lastBraceBeforeFirstBracket (l : List Char) : Bool :=
  l.contains '[' && (l.dropWhile notBracketB).all notBraceB

/-- `s` wrapped in a markdown code fence with the `json` language tag. -/
def wrapJsonFence (s : String) : String := "```json\n" ++ s ++ "\n```"

/-- `s` wrapped in a markdown code fence without a language tag. -/
def wrapPlainFence (s : String) : String := "```\n" ++ s ++ "\n```"

/-! ## Lemmas: whitespace, trimming, slicing -/

theorem skipWs_cons_of_not_ws {c : Char} (h : isWsChar c = false) (l : List Char) :
    skipWs (c :: l) = c :: l := by
  simp [skipWs, h]

theorem skipWs_decomp : ∀ {l r : List Char}, skipWs l = r →
    ∃ w, l = w ++ r ∧ ∀ c ∈ w, isWsChar c = true
  | [], r, h => ⟨[], by simpa using h.symm, by simp⟩
  | c :: l, r, h => by
    by_cases hc : isWsChar c
    · simp only [skipWs, hc, if_true] at h
      obtain ⟨w, hw, hall⟩ := skipWs_decomp h
      exact ⟨c :: w, by simp [hw], by simpa [hc] using hall⟩
    · simp only [skipWs, hc, if_false] at h
      exact ⟨[], by simp [h.symm], by simp⟩

theorem skipWs_nil_all_ws {l : List Char} (h : skipWs l = []) :
    ∀ c ∈ l, isWsChar c = true := by
  obtain ⟨w, hw, hall⟩ := skipWs_decomp h
  simpa [hw] using hall

theorem dropWhile_append_of_all {p : Char → Bool} {a : List Char}
    (h : ∀ c ∈ a, p c = true) (b : List Char) :
    (a ++ b).dropWhile p = b.dropWhile p := by
  induction a with
  | nil => simp
  | cons c t ih =>
    have hc : p c = true := h c (by simp)
    simpa [List.dropWhile_cons, hc] using ih (fun x hx => h x (by simp [hx]))

theorem dropWhile_eq_nil_of_all {p : Char → Bool} {a : List Char}
    (h : ∀ c ∈ a, p c = true) : a.dropWhile p = [] := by
  simpa using dropWhile_append_of_all h []

theorem dropWhile_cons_of_neg {p : Char → Bool} {c : Char} (h : p c = false) (l : List Char) :
    (c :: l).dropWhile p = c :: l := by
  simp [List.dropWhile_cons, h]

theorem jsTrimL_cons_of_not_ws {c : Char} (h : isWsChar c = false) (l : List Char) :
    jsTrimL (c :: l) = c :: l := dropWhile_cons_of_neg h l

theorem jsTrimR_append_last {a : List Char} {c : Char} (h : isWsChar c = false) :
    jsTrimR (a ++ [c]) = a ++ [c] := by
  simp [jsTrimR, List.reverse_append, dropWhile_cons_of_neg h]

theorem jsTrimR_subset {l : List Char} : ∀ c ∈ jsTrimR l, c ∈ l := by
  intro c hc
  simp only [jsTrimR, List.mem_reverse] at hc
  have := List.dropWhile_sublist (l := l.reverse) (p := isWsChar)
  exact List.mem_reverse.mp (this.mem hc)

theorem dropWhile_nil_all {p : Char → Bool} : ∀ {l : List Char},
    l.dropWhile p = [] → ∀ x ∈ l, p x = true
  | [], _, x, hx => by simp at hx
  | c :: t, h, x, hx => by
    by_cases hc : p c = true
    · simp only [List.dropWhile_cons, hc, if_true] at h
      rcases List.mem_cons.mp hx with rfl | hxt
      · exact hc
      · exact dropWhile_nil_all h x hxt
    · simp only [List.dropWhile_cons, hc, if_false] at h
      exact absurd h (by simp)

theorem jsTrimR_ne_nil {l : List Char} {c : Char} (hc : c ∈ l) (h : isWsChar c = false) :
    jsTrimR l ≠ [] := by
  intro hnil
  have hdw : l.reverse.dropWhile isWsChar = [] := by
    have := congrArg List.reverse hnil
    simpa [jsTrimR] using this
  have := dropWhile_nil_all hdw c (List.mem_reverse.mpr hc)
  rw [h] at this
  exact absurd this (by simp)

theorem jsTrim_cons_ws {c : Char} (h : isWsChar c = true) (l : List Char) :
    jsTrim (c :: l) = jsTrim l := by
  simp [jsTrim, jsTrimL, List.dropWhile_cons, h]

theorem jsTrimR_append_ws {c : Char} (h : isWsChar c = true) (l : List Char) :
    jsTrimR (l ++ [c]) = jsTrimR l := by
  simp [jsTrimR, List.reverse_append, List.dropWhile_cons, h]

theorem jsTrimL_append (a b : List Char) :
    jsTrimL (a ++ b) = if jsTrimL a = [] then jsTrimL b else jsTrimL a ++ b := by
  induction a with
  | nil => simp [jsTrimL]
  | cons c t ih =>
    by_cases hc : isWsChar c = true
    · simpa [jsTrimL, List.dropWhile_cons, hc] using ih
    · have hc' : isWsChar c = false := by cases h : isWsChar c; rfl; exact absurd h hc
      simp [jsTrimL, List.dropWhile_cons, hc']

theorem jsTrim_append_ws {c : Char} (h : isWsChar c = true) (l : List Char) :
    jsTrim (l ++ [c]) = jsTrim l := by
  simp only [jsTrim]
  rw [jsTrimL_append]
  by_cases hl : jsTrimL l = []
  · have h1 : jsTrimL [c] = [] := by simp [jsTrimL, List.dropWhile_cons, h]
    simp [hl, h1, jsTrimR]
  · simp [hl, jsTrimR_append_ws h]

theorem jsTrimR_append_of_ne_nil {b : List Char} (hb : jsTrimR b ≠ []) (a : List Char) :
    jsTrimR (a ++ b) = a ++ jsTrimR b := by
  have hdw : b.reverse.dropWhile isWsChar ≠ [] := by
    intro h
    exact hb (by simp [jsTrimR, h])
  simp only [jsTrimR, List.reverse_append, List.dropWhile_append, List.isEmpty_iff, hdw,
    if_false, List.reverse_append, List.reverse_reverse]

theorem jsTrim_cons_not_ws {c : Char} (h : isWsChar c = false) (l : List Char) :
    jsTrim (c :: l) = jsTrimR (c :: l) := by
  simp [jsTrim, jsTrimL_cons_of_not_ws h]

/-! ## Lemmas: the repair slicing -/

theorem dropUntilBracket_cons_bracket (l : List Char) :
    dropUntilBracket ('[' :: l) = some ('[' :: l) := by
  simp [dropUntilBracket, dropWhile_cons_of_neg (by decide : notBracketB '[' = false)]

theorem dropUntilBracket_eq_none {l : List Char} (h : '[' ∉ l) :
    dropUntilBracket l = none := by
  simp [dropUntilBracket, h]

theorem notBraceB_eq_true {c : Char} (h : c ≠ '}') : notBraceB c = true := by
  simp [notBraceB, h]

theorem takeThroughLastBrace_of_no_brace {l : List Char} (h : '}' ∉ l) :
    takeThroughLastBrace l = none := by
  have hnil : l.reverse.dropWhile notBraceB = [] := by
    apply dropWhile_eq_nil_of_all
    intro c hc
    exact notBraceB_eq_true (fun hceq => h (hceq ▸ List.mem_reverse.mp hc))
  simp [takeThroughLastBrace, hnil]

theorem takeThroughLastBrace_append {a b : List Char} (ha : a ≠ [])
    (hlast : a.getLast? = some '}') (hb : '}' ∉ b) :
    takeThroughLastBrace (a ++ b) = some a := by
  obtain ⟨a', rfl⟩ : ∃ a', a = a' ++ ['}'] := List.getLast?_eq_some_iff.mp hlast
  have h1 : List.dropWhile notBraceB (b.reverse ++ '}' :: a'.reverse) = '}' :: a'.reverse := by
    rw [dropWhile_append_of_all (fun c hc => notBraceB_eq_true
      (fun hceq => hb (hceq ▸ List.mem_reverse.mp hc))) _]
    simp [List.dropWhile_cons, notBraceB]
  simp only [takeThroughLastBrace, List.reverse_append, List.reverse_cons, List.reverse_nil,
    List.nil_append, List.cons_append, h1]
  simp

/-! ## Lemmas: parser consumption

Every successful parse consumes a prefix of its input: the returned
rest is a suffix. -/

theorem digitSpan_consumed {l ds r : List Char} (h : digitSpan l = (ds, r)) : l = ds ++ r := by
  have h1 : ds = l.takeWhile Char.isDigit := by simpa [digitSpan] using congrArg Prod.fst h.symm
  have h2 : r = l.dropWhile Char.isDigit := by simpa [digitSpan] using congrArg Prod.snd h.symm
  rw [h1, h2, List.takeWhile_append_dropWhile]

theorem parseIntPart_consumed : ∀ {l p1 p2 : List Char},
    parseIntPart l = some (p1, p2) → l = p1 ++ p2 := by
  intro l p1 p2 h
  match l with
  | [] => simp [parseIntPart] at h
  | c :: t =>
    simp only [parseIntPart] at h
    by_cases h0 : c = '0'
    · simp only [h0, if_true] at h
      obtain ⟨h1, h2⟩ := Prod.mk.injEq .. ▸ Option.some.injEq .. ▸ h
      subst h0; simp [← h1, ← h2]
    · simp only [h0, if_false] at h
      by_cases hd : c.isDigit
      · simp only [hd, if_true] at h
        cases hds : digitSpan t with
        | mk ds r =>
          rw [hds] at h
          obtain ⟨h1, h2⟩ := Prod.mk.injEq .. ▸ Option.some.injEq .. ▸ h
          rw [← h1, ← h2]
          simp [digitSpan_consumed hds]
      · simp [hd] at h

theorem expDigits_consumed : ∀ {l p1 p2 : List Char},
    expDigits l = some (p1, p2) → l = p1 ++ p2 := by
  intro l p1 p2 h
  match l with
  | [] => simp [expDigits] at h
  | c :: t =>
    simp only [expDigits] at h
    by_cases hs : c = '+' ∨ c = '-'
    · simp only [hs, if_true] at h
      cases hds : digitSpan t with
      | mk ds r =>
        rw [hds] at h
        by_cases hnil : ds = []
        · simp [hnil] at h
        · simp only [hnil, if_false, Option.some.injEq, Prod.mk.injEq] at h
          rw [← h.1, ← h.2]
          simp [digitSpan_consumed hds]
    · simp only [hs, if_false] at h
      cases hds : digitSpan (c :: t) with
      | mk ds r =>
        rw [hds] at h
        by_cases hnil : ds = []
        · simp [hnil] at h
        · simp only [hnil, if_false, Option.some.injEq, Prod.mk.injEq] at h
          rw [← h.1, ← h.2]
          exact digitSpan_consumed hds

theorem expPart_consumed : ∀ {l p1 p2 : List Char},
    expPart l = some (p1, p2) → l = p1 ++ p2 := by
  intro l p1 p2 h
  match l with
  | [] =>
    simp only [expPart, Option.some.injEq, Prod.mk.injEq] at h
    simp [← h.1, ← h.2]
  | c :: t =>
    simp only [expPart] at h
    by_cases he : c = 'e' ∨ c = 'E'
    · simp only [he, if_true, Option.map_eq_some'] at h
      obtain ⟨⟨q1, q2⟩, hq, hqe⟩ := h
      obtain ⟨h1, h2⟩ := Prod.mk.injEq .. ▸ hqe
      rw [← h1, ← h2]
      simp [expDigits_consumed hq]
    · simp only [he, if_false, Option.some.injEq, Prod.mk.injEq] at h
      simp [← h.1, ← h.2]

theorem fracExpPart_consumed : ∀ {l p1 p2 : List Char},
    fracExpPart l = some (p1, p2) → l = p1 ++ p2 := by
  intro l p1 p2 h
  match l with
  | [] =>
    have h' : expPart [] = some (p1, p2) := by simpa [fracExpPart] using h
    exact expPart_consumed h'
  | c :: t =>
    simp only [fracExpPart] at h
    by_cases hdot : c = '.'
    · simp only [hdot, if_true] at h
      cases hds : digitSpan t with
      | mk ds r =>
        rw [hds] at h
        by_cases hnil : ds = []
        · simp [hnil] at h
        · simp only [hnil, if_false, Option.map_eq_some'] at h
          obtain ⟨⟨q1, q2⟩, hq, hqe⟩ := h
          obtain ⟨h1, h2⟩ := Prod.mk.injEq .. ▸ hqe
          rw [← h1, ← h2]
          subst hdot
          simp [digitSpan_consumed hds, expPart_consumed hq]
    · simp only [hdot, if_false] at h
      exact expPart_consumed h

theorem parseNumberAt_consumed : ∀ {l p1 p2 : List Char},
    parseNumberAt l = some (p1, p2) → l = p1 ++ p2 := by
  intro l p1 p2 h
  match l with
  | [] => simp [parseNumberAt] at h
  | c :: t =>
    simp only [parseNumberAt] at h
    by_cases hm : c = '-'
    · simp only [hm, if_true] at h
      cases hip : parseIntPart t with
      | none => rw [hip] at h; simp at h
      | some ipr =>
        rw [hip] at h
        cases ipr with
        | mk ip r =>
          simp only [Option.map_eq_some'] at h
          obtain ⟨⟨q1, q2⟩, hq, hqe⟩ := h
          obtain ⟨h1, h2⟩ := Prod.mk.injEq .. ▸ hqe
          rw [← h1, ← h2]
          subst hm
          simp [parseIntPart_consumed hip, fracExpPart_consumed hq]
    · simp only [hm, if_false] at h
      cases hip : parseIntPart (c :: t) with
      | none => rw [hip] at h; simp at h
      | some ipr =>
        rw [hip] at h
        cases ipr with
        | mk ip r =>
          simp only [Option.map_eq_some'] at h
          obtain ⟨⟨q1, q2⟩, hq, hqe⟩ := h
          obtain ⟨h1, h2⟩ := Prod.mk.injEq .. ▸ hqe
          rw [← h1, ← h2]
          rw [parseIntPart_consumed hip, fracExpPart_consumed hq]
          simp

theorem parseStringBody_consumed : ∀ {l : List Char} {d rest : List Char},
    parseStringBody l = some (d, rest) → ∃ p, l = p ++ rest
  | [], d, rest, h => by simp [parseStringBody] at h
  | c :: l, d, rest, h => by
    unfold parseStringBody at h
    by_cases hq : c = '"'
    · rw [if_pos hq] at h
      refine ⟨[c], ?_⟩
      have : l = rest := (Prod.mk.injEq .. ▸ Option.some.inj h).2
      rw [this]; rfl
    · rw [if_neg hq] at h
      by_cases hb : c = '\\'
      · rw [if_pos hb] at h
        match l with
        | [] => exact absurd h (by simp)
        | e :: l1 =>
          simp only at h
          by_cases hu : e = 'u'
          · rw [if_pos hu] at h
            match l1 with
            | [] => exact absurd h (by simp)
            | [h1] => exact absurd h (by simp)
            | [h1, h2] => exact absurd h (by simp)
            | [h1, h2, h3] => exact absurd h (by simp)
            | h1 :: h2 :: h3 :: h4 :: l2 =>
              simp only at h
              split at h
              · simp only [Option.map_eq_some'] at h
                obtain ⟨⟨d2, r2⟩, hp, hpe⟩ := h
                have he2 : r2 = rest := (Prod.mk.injEq .. ▸ hpe).2
                obtain ⟨p2, hp2⟩ := parseStringBody_consumed hp
                exact ⟨c :: e :: h1 :: h2 :: h3 :: h4 :: p2, by rw [← he2]; simp [hp2]⟩
              · exact absurd h (by simp)
          · rw [if_neg hu] at h
            cases hesc : escChar e with
            | none => rw [hesc] at h; exact absurd h (by simp)
            | some d1 =>
              rw [hesc] at h
              simp only [Option.map_eq_some'] at h
              obtain ⟨⟨d2, r2⟩, hp, hpe⟩ := h
              have he2 : r2 = rest := (Prod.mk.injEq .. ▸ hpe).2
              obtain ⟨p2, hp2⟩ := parseStringBody_consumed hp
              exact ⟨c :: e :: p2, by rw [← he2]; simp [hp2]⟩
      · rw [if_neg hb] at h
        by_cases hctl : c.toNat < 32
        · rw [if_pos hctl] at h; exact absurd h (by simp)
        · rw [if_neg hctl] at h
          simp only [Option.map_eq_some'] at h
          obtain ⟨⟨d2, r2⟩, hp, hpe⟩ := h
          have he2 : r2 = rest := (Prod.mk.injEq .. ▸ hpe).2
          obtain ⟨p2, hp2⟩ := parseStringBody_consumed hp
          exact ⟨c :: p2, by rw [← he2]; simp [hp2]⟩

theorem parsers_consumed : ∀ (f : Nat),
    (∀ {l : List Char} {v : Json} {r : List Char}, parseValue f l = some (v, r) → ∃ p, l = p ++ r) ∧
    (∀ {l : List Char} {vs : List Json} {r : List Char}, parseArrayRest f l = some (vs, r) → ∃ p, l = p ++ r) ∧
    (∀ {l : List Char} {ps : List (String × Json)} {r : List Char}, parseObjRest f l = some (ps, r) → ∃ p, l = p ++ r) := by
  intro f
  induction f with
  | zero =>
    refine ⟨?_, ?_, ?_⟩ <;> (intro l x r h; simp [parseValue, parseArrayRest, parseObjRest, parsers, parsersZero] at h)
  | succ f ih =>
    obtain ⟨ihv, iha, iho⟩ := ih
    refine ⟨?_, ?_, ?_⟩
    · intro l v rest h
      simp only [parseValue, parsers, parsersSucc] at h
      cases hsw : skipWs l with
      | nil => rw [hsw] at h; simp at h
      | cons c r =>
        rw [hsw] at h
        simp only at h
        obtain ⟨w, hw, -⟩ := skipWs_decomp hsw
        by_cases hq : c = '"'
        · rw [if_pos hq] at h
          simp only [Option.map_eq_some'] at h
          obtain ⟨⟨d2, r2⟩, hp, hpe⟩ := h
          have he2 : r2 = rest := (Prod.mk.injEq .. ▸ hpe).2
          obtain ⟨p2, hp2⟩ := parseStringBody_consumed hp
          exact ⟨w ++ c :: p2, by rw [hw, hp2, he2]; simp⟩
        · rw [if_neg hq] at h
          by_cases hbk : c = '['
          · rw [if_pos hbk] at h
            split at h
            · rename_i r2 heq
              have hre : rest = r2 := ((Prod.mk.injEq .. ▸ Option.some.inj h).2).symm
              obtain ⟨w2, hw2, -⟩ := skipWs_decomp heq
              exact ⟨w ++ c :: w2 ++ [']'], by rw [hw, hw2, hre]; simp⟩
            · simp only [Option.map_eq_some'] at h
              obtain ⟨⟨vs2, r2⟩, hp, hpe⟩ := h
              have he2 : r2 = rest := (Prod.mk.injEq .. ▸ hpe).2
              obtain ⟨p2, hp2⟩ := iha hp
              exact ⟨w ++ c :: p2, by rw [hw, hp2, he2]; simp⟩
          · rw [if_neg hbk] at h
            by_cases hbc : c = '{'
            · rw [if_pos hbc] at h
              split at h
              · rename_i r2 heq
                have hre : rest = r2 := ((Prod.mk.injEq .. ▸ Option.some.inj h).2).symm
                obtain ⟨w2, hw2, -⟩ := skipWs_decomp heq
                exact ⟨w ++ c :: w2 ++ ['}'], by rw [hw, hw2, hre]; simp⟩
              · simp only [Option.map_eq_some'] at h
                obtain ⟨⟨ps2, r2⟩, hp, hpe⟩ := h
                have he2 : r2 = rest := (Prod.mk.injEq .. ▸ hpe).2
                obtain ⟨p2, hp2⟩ := iho hp
                exact ⟨w ++ c :: p2, by rw [hw, hp2, he2]; simp⟩
            · rw [if_neg hbc] at h
              by_cases hn : c = 'n'
              · rw [if_pos hn] at h
                split at h
                · rename_i r2
                  have hre : rest = r2 := ((Prod.mk.injEq .. ▸ Option.some.inj h).2).symm
                  exact ⟨w ++ [c, 'u', 'l', 'l'], by rw [hw, hre]; simp⟩
                · simp at h
              · rw [if_neg hn] at h
                by_cases ht : c = 't'
                · rw [if_pos ht] at h
                  split at h
                  · rename_i r2
                    have hre : rest = r2 := ((Prod.mk.injEq .. ▸ Option.some.inj h).2).symm
                    exact ⟨w ++ [c, 'r', 'u', 'e'], by rw [hw, hre]; simp⟩
                  · simp at h
                · rw [if_neg ht] at h
                  by_cases hf : c = 'f'
                  · rw [if_pos hf] at h
                    split at h
                    · rename_i r2
                      have hre : rest = r2 := ((Prod.mk.injEq .. ▸ Option.some.inj h).2).symm
                      exact ⟨w ++ [c, 'a', 'l', 's', 'e'], by rw [hw, hre]; simp⟩
                    · simp at h
                  · rw [if_neg hf] at h
                    simp only [Option.map_eq_some'] at h
                    obtain ⟨⟨lit, r2⟩, hp, hpe⟩ := h
                    have he2 : r2 = rest := (Prod.mk.injEq .. ▸ hpe).2
                    have := parseNumberAt_consumed hp
                    exact ⟨w ++ lit, by rw [hw, this, he2]; simp⟩
    · intro l vs rest h
      simp only [parseArrayRest, parsers, parsersSucc] at h
      cases hv : (parsers f).val l with
      | none => rw [hv] at h; simp at h
      | some vr =>
        rw [hv] at h
        cases vr with
        | mk v r =>
          simp only at h
          obtain ⟨p0, hp0⟩ := ihv (show parseValue f l = some (v, r) from hv)
          split at h
          · rename_i r2 heq
            cases ha : (parsers f).arrRest r2 with
            | none => rw [ha] at h; simp at h
            | some vr3 =>
              rw [ha] at h
              cases vr3 with
              | mk vs3 r3 =>
                simp only at h
                have hre : rest = r3 := ((Prod.mk.injEq .. ▸ Option.some.inj h).2).symm
                obtain ⟨w2, hw2, -⟩ := skipWs_decomp heq
                obtain ⟨p2, hp2⟩ := iha (show parseArrayRest f r2 = some (vs3, r3) from ha)
                exact ⟨p0 ++ w2 ++ ',' :: p2, by rw [hp0, hw2, hp2, hre]; simp⟩
          · rename_i r2 heq
            have hre : rest = r2 := ((Prod.mk.injEq .. ▸ Option.some.inj h).2).symm
            obtain ⟨w2, hw2, -⟩ := skipWs_decomp heq
            exact ⟨p0 ++ w2 ++ [']'], by rw [hp0, hw2, hre]; simp⟩
          · simp at h
    · intro l ps rest h
      simp only [parseObjRest, parsers, parsersSucc] at h
      split at h
      · rename_i r heq
        obtain ⟨w1, hw1, -⟩ := skipWs_decomp heq
        cases hk : parseStringBody r with
        | none => rw [hk] at h; simp at h
        | some kr =>
          rw [hk] at h
          cases kr with
          | mk k r1 =>
            simp only at h
            obtain ⟨pk, hpk⟩ := parseStringBody_consumed hk
            split at h
            · rename_i r2 heq2
              obtain ⟨w2, hw2, -⟩ := skipWs_decomp heq2
              cases hvv : (parsers f).val r2 with
              | none => rw [hvv] at h; simp at h
              | some vr =>
                rw [hvv] at h
                cases vr with
                | mk v r3 =>
                  simp only at h
                  obtain ⟨pv, hpv⟩ := ihv (show parseValue f r2 = some (v, r3) from hvv)
                  split at h
                  · rename_i r4 heq3
                    cases ho : (parsers f).objRest r4 with
                    | none => rw [ho] at h; simp at h
                    | some pr5 =>
                      rw [ho] at h
                      cases pr5 with
                      | mk ps5 r5 =>
                        simp only at h
                        have hre : rest = r5 := ((Prod.mk.injEq .. ▸ Option.some.inj h).2).symm
                        obtain ⟨w3, hw3, -⟩ := skipWs_decomp heq3
                        obtain ⟨po, hpo⟩ := iho (show parseObjRest f r4 = some (ps5, r5) from ho)
                        exact ⟨w1 ++ '"' :: pk ++ w2 ++ ':' :: pv ++ w3 ++ ',' :: po, by
                          rw [hw1, hpk, hw2, hpv, hw3, hpo, hre]; simp⟩
                  · rename_i r4 heq3
                    have hre : rest = r4 := ((Prod.mk.injEq .. ▸ Option.some.inj h).2).symm
                    obtain ⟨w3, hw3, -⟩ := skipWs_decomp heq3
                    exact ⟨w1 ++ '"' :: pk ++ w2 ++ ':' :: pv ++ w3 ++ ['}'], by
                      rw [hw1, hpk, hw2, hpv, hw3, hre]; simp⟩
                  · simp at h
            · simp at h
      · simp at h

/-- A successful array-items parse consumes through a closing `]`:
the character immediately before the returned rest is `]`. -/
theorem parseArrayRest_closes : ∀ (f : Nat) {l : List Char} {vs : List Json} {rest : List Char},
    parseArrayRest f l = some (vs, rest) → ∃ pre, l = pre ++ ']' :: rest := by
  intro f
  induction f with
  | zero => intro l vs rest h; simp [parseArrayRest, parsers, parsersZero] at h
  | succ f ih =>
    intro l vs rest h
    simp only [parseArrayRest, parsers, parsersSucc] at h
    cases hv : (parsers f).val l with
    | none => rw [hv] at h; simp at h
    | some vr =>
      rw [hv] at h
      cases vr with
      | mk v r =>
        simp only at h
        obtain ⟨p0, hp0⟩ := (parsers_consumed f).1 (show parseValue f l = some (v, r) from hv)
        split at h
        · rename_i r2 heq
          cases ha : (parsers f).arrRest r2 with
          | none => rw [ha] at h; simp at h
          | some vr3 =>
            rw [ha] at h
            cases vr3 with
            | mk vs3 r3 =>
              simp only at h
              have hre : rest = r3 := ((Prod.mk.injEq .. ▸ Option.some.inj h).2).symm
              obtain ⟨w2, hw2, -⟩ := skipWs_decomp heq
              obtain ⟨pre2, hpre2⟩ := ih (show parseArrayRest f r2 = some (vs3, r3) from ha)
              exact ⟨p0 ++ w2 ++ ',' :: pre2, by rw [hp0, hw2, hpre2, hre]; simp⟩
        · rename_i r2 heq
          have hre : rest = r2 := ((Prod.mk.injEq .. ▸ Option.some.inj h).2).symm
          obtain ⟨w2, hw2, -⟩ := skipWs_decomp heq
          exact ⟨p0 ++ w2, by rw [hp0, hw2, hre]; simp⟩
        · simp at h

/-- A list of the shape `[ … ] ++ whitespace` does not end in `}`. -/
theorem getLast_bracket_ws_ne_brace {X rest : List Char}
    (hws : ∀ c ∈ rest, isWsChar c = true) :
    ('[' :: (X ++ ']' :: rest)).getLast? ≠ some '}' := by
  rcases List.eq_nil_or_concat rest with hr | ⟨rest', c, hr⟩
  · subst hr
    have : '[' :: (X ++ [']']) = ('[' :: X) ++ [']'] := by simp
    rw [this, List.getLast?_concat]
    intro hcon
    exact absurd (Option.some.inj hcon) (by decide)
  · subst hr
    simp only [List.concat_eq_append] at hws ⊢
    have hshape : '[' :: (X ++ ']' :: (rest' ++ [c])) = ('[' :: X ++ ']' :: rest') ++ [c] := by
      simp
    rw [hshape, List.getLast?_concat]
    intro hcon
    have hc : c = '}' := Option.some.inj hcon
    have := hws c (by simp)
    rw [hc] at this
    exact absurd this (by decide)

/-- A string that starts with `[` and ends with `}` is never valid
JSON: a top-level array parse closes with `]`, which would have to be
the last non-whitespace character. Consequently the final repair
attempt of `robustJsonParse` (parsing the slice from the first `[`
through the last `}` without the appended `]`) can never succeed. -/
theorem parseJson_bracket_brace_none {t : List Char}
    (hlast : ('[' :: t).getLast? = some '}') : parseJson ('[' :: t) = none := by
  cases hpv : parseValue (2 * ('[' :: t).length + 4) ('[' :: t) with
  | none => rw [parseJson, hpv]
  | some vr =>
    cases vr with
    | mk v rest =>
      rw [parseJson, hpv]
      by_cases hrest : skipWs rest = []
      · exfalso
        have hne : isWsChar '[' = false := by decide
        have hsw : skipWs ('[' :: t) = '[' :: t := skipWs_cons_of_not_ws hne t
        have hF : 2 * ('[' :: t).length + 4 = (2 * ('[' :: t).length + 3) + 1 := by omega
        rw [hF] at hpv
        have hunf : parseValue (2 * ('[' :: t).length + 3 + 1) ('[' :: t)
            = (parsersSucc (parsers (2 * ('[' :: t).length + 3))).val ('[' :: t) := rfl
        rw [hunf] at hpv
        simp only [parsersSucc] at hpv
        rw [hsw] at hpv
        simp only at hpv
        rw [if_neg (by decide : ¬('[' : Char) = '"')] at hpv
        simp only [if_true] at hpv
        have hwsrest : ∀ c ∈ rest, isWsChar c = true := skipWs_nil_all_ws hrest
        split at hpv
        · rename_i r2 heq
          have hre : rest = r2 := ((Prod.mk.injEq .. ▸ Option.some.inj hpv).2).symm
          obtain ⟨w2, hw2, -⟩ := skipWs_decomp heq
          rw [← hre] at hw2
          rw [hw2] at hlast
          exact getLast_bracket_ws_ne_brace hwsrest hlast
        · simp only [Option.map_eq_some'] at hpv
          obtain ⟨⟨vs2, r2⟩, hp, hpe⟩ := hpv
          have hre : r2 = rest := (Prod.mk.injEq .. ▸ hpe).2
          obtain ⟨pre, hpre⟩ := parseArrayRest_closes _ hp
          rw [hre] at hpre
          rw [hpre] at hlast
          exact getLast_bracket_ws_ne_brace hwsrest hlast
      · simp [hrest]

/-! ## Lemmas: the parser accepts canonically serialized records -/

theorem parseStringBody_simple : ∀ {d : List Char}, d.all simpleChar = true →
    ∀ (rest : List Char), parseStringBody (d ++ '"' :: rest) = some (d, rest)
  | [], _, rest => by
    simp only [List.nil_append]
    unfold parseStringBody
    rw [if_pos rfl]
  | c :: d, hall, rest => by
    simp only [List.all_cons, Bool.and_eq_true] at hall
    obtain ⟨hc, hd⟩ := hall
    simp only [simpleChar, Bool.and_eq_true, decide_eq_true_eq] at hc
    obtain ⟨⟨hq, hb⟩, hctl⟩ := hc
    simp only [List.cons_append]
    unfold parseStringBody
    rw [if_neg hq, if_neg hb, if_neg (by omega : ¬c.toNat < 32)]
    rw [parseStringBody_simple hd rest]
    rfl

theorem parseValue_simple_str {d : List Char} (hall : d.all simpleChar = true)
    (f : Nat) (rest : List Char) :
    parseValue (f + 1) ('"' :: (d ++ '"' :: rest)) = some (Json.str (String.mk d), rest) := by
  show (parsersSucc (parsers f)).val _ = _
  simp only [parsersSucc]
  rw [skipWs_cons_of_not_ws (by decide)]
  simp only
  simp only [if_true]
  rw [parseStringBody_simple hall rest]
  rfl

theorem parseObjRest_ser : ∀ (flds : FlatRec), flds ≠ [] → simpleRec flds = true →
    ∀ (rest : List Char) (f : Nat), flds.length + 1 ≤ f →
    parseObjRest f (serFieldsL flds ++ '}' :: rest)
      = some (flds.map (fun x => (x.1, Json.str x.2)), rest) := by
  intro flds
  induction flds with
  | nil => intro h; exact absurd rfl h
  | cons x xs ih =>
    intro _ hs rest f hf
    obtain ⟨k, v⟩ := x
    simp only [simpleRec, List.all_cons, Bool.and_eq_true] at hs
    obtain ⟨⟨hk, hv⟩, hxs⟩ := hs
    have hf2 : 2 ≤ f := by simp only [List.length_cons] at hf; omega
    obtain ⟨f', rfl⟩ : ∃ f', f = f' + 1 := ⟨f - 1, by omega⟩
    have hval : (parsers f').val = parseValue f' := rfl
    have hobj : (parsers f').objRest = parseObjRest f' := rfl
    obtain ⟨f'', rfl⟩ : ∃ f'', f' = f'' + 1 := ⟨f' - 1, by omega⟩
    cases xs with
    | nil =>
      simp only [serFieldsL, serFieldL, List.cons_append, List.append_assoc, List.nil_append]
      show (parsersSucc (parsers (f'' + 1))).objRest _ = _
      simp only [parsersSucc]
      rw [skipWs_cons_of_not_ws (by decide)]
      simp only
      rw [parseStringBody_simple hk]
      simp only
      rw [skipWs_cons_of_not_ws (by decide)]
      simp only [hval]
      rw [parseValue_simple_str hv]
      simp only
      rw [skipWs_cons_of_not_ws (by decide)]
      simp only [List.map_cons, List.map_nil]
    | cons y ys =>
      simp only [serFieldsL, serFieldL, List.cons_append, List.append_assoc, List.nil_append]
      show (parsersSucc (parsers (f'' + 1))).objRest _ = _
      simp only [parsersSucc]
      rw [skipWs_cons_of_not_ws (by decide)]
      simp only
      rw [parseStringBody_simple hk]
      simp only
      rw [skipWs_cons_of_not_ws (by decide)]
      simp only [hval]
      rw [parseValue_simple_str hv]
      simp only
      rw [skipWs_cons_of_not_ws (by decide)]
      simp only [hobj]
      rw [ih (by simp) (by simpa [simpleRec] using hxs) rest (f'' + 1) (by
        simp only [List.length_cons] at hf ⊢; omega)]
      simp only [List.map_cons]

theorem serFieldsL_cons_head (x : String × String) (xs : FlatRec) :
    ∃ tl, serFieldsL (x :: xs) = '"' :: tl := by
  cases xs with
  | nil => exact ⟨_, rfl⟩
  | cons y ys =>
    refine ⟨x.1.data ++ '"' :: ':' :: '"' :: x.2.data ++ ['"'] ++ ',' :: serFieldsL (y :: ys), ?_⟩
    simp [serFieldsL, serFieldL, List.cons_append, List.append_assoc]

theorem parseValue_ser_rec (r : FlatRec) (hs : simpleRec r = true) (rest : List Char)
    (f : Nat) (hf : r.length + 2 ≤ f) :
    parseValue f (serRecL r ++ rest) = some (jsonOfRec r, rest) := by
  obtain ⟨f', rfl⟩ : ∃ f', f = f' + 1 := ⟨f - 1, by omega⟩
  have hobj : (parsers f').objRest = parseObjRest f' := rfl
  simp only [serRecL, List.cons_append, List.append_assoc, List.nil_append]
  show (parsersSucc (parsers f')).val _ = _
  simp only [parsersSucc]
  rw [skipWs_cons_of_not_ws (by decide)]
  simp only
  simp only [if_true]
  rw [if_neg (by decide : ¬('{' : Char) = '"'), if_neg (by decide : ¬('{' : Char) = '[')]
  cases r with
  | nil =>
    simp only [serFieldsL, List.nil_append]
    rw [skipWs_cons_of_not_ws (by decide : isWsChar '}' = false)]
    simp [jsonOfRec]
  | cons x xs =>
    obtain ⟨tl, htl⟩ := serFieldsL_cons_head x xs
    rw [htl]
    simp only [List.cons_append]
    rw [skipWs_cons_of_not_ws (by decide : isWsChar '"' = false)]
    split
    · rename_i r2 heq
      exact absurd (List.cons.injEq .. ▸ heq).1 (by decide)
    rw [← List.cons_append, ← htl, hobj]
    rw [parseObjRest_ser (x :: xs) (by simp) hs rest f'
      (by simp only [List.length_cons] at hf ⊢; omega)]
    simp [jsonOfRec]

/-- Fuel needed to parse a serialized record array body. -/
def weight : List FlatRec → Nat
  | [] => 1
  | r :: rs => r.length + 3 + weight rs

theorem parseArrayRest_ser : ∀ (objs : List FlatRec), objs ≠ [] →
    (∀ r ∈ objs, simpleRec r = true) → ∀ (rest : List Char) (f : Nat), weight objs ≤ f →
    parseArrayRest f (serRecsBodyL objs ++ ']' :: rest) = some (objs.map jsonOfRec, rest) := by
  intro objs
  induction objs with
  | nil => intro h; exact absurd rfl h
  | cons r rs ih =>
    intro _ hall rest f hf
    have hr : simpleRec r = true := hall r (by simp)
    have hwf : 1 ≤ f := by simp only [weight] at hf; omega
    obtain ⟨f', rfl⟩ : ∃ f', f = f' + 1 := ⟨f - 1, by omega⟩
    have hval : (parsers f').val = parseValue f' := rfl
    have harr : (parsers f').arrRest = parseArrayRest f' := rfl
    show (parsersSucc (parsers f')).arrRest _ = _
    simp only [parsersSucc]
    cases rs with
    | nil =>
      simp only [serRecsBodyL, hval]
      rw [parseValue_ser_rec r hr (']' :: rest) f' (by simp only [weight] at hf; omega)]
      simp only
      rw [skipWs_cons_of_not_ws (by decide : isWsChar ']' = false)]
      simp [List.map_cons]
    | cons r2 rs2 =>
      simp only [serRecsBodyL, List.append_assoc, List.cons_append, hval]
      rw [parseValue_ser_rec r hr (',' :: (serRecsBodyL (r2 :: rs2) ++ ']' :: rest)) f'
        (by simp only [weight] at hf; omega)]
      simp only
      rw [skipWs_cons_of_not_ws (by decide : isWsChar ',' = false)]
      simp only [harr]
      rw [ih (by simp) (fun q hq => hall q (by simp [hq])) rest f'
        (by simp only [weight] at hf ⊢; omega)]
      simp [List.map_cons]

theorem serFieldsL_length_ge : ∀ (flds : FlatRec), flds.length ≤ (serFieldsL flds).length := by
  intro flds
  induction flds with
  | nil => simp [serFieldsL]
  | cons x xs ih =>
    cases xs with
    | nil => simp [serFieldsL, serFieldL]
    | cons y ys =>
      have h1 : serFieldsL (x :: y :: ys) = serFieldL x ++ ',' :: serFieldsL (y :: ys) := rfl
      rw [h1]
      simp only [List.length_append, List.length_cons, serFieldL, List.length_append] at *
      omega

theorem weight_le_body_length : ∀ (objs : List FlatRec),
    weight objs ≤ (serRecsBodyL objs).length + 2 := by
  intro objs
  induction objs with
  | nil => simp [weight, serRecsBodyL]
  | cons r rs ih =>
    have hfl := serFieldsL_length_ge r
    cases rs with
    | nil =>
      simp only [weight, serRecsBodyL, serRecL, List.length_cons, List.length_append]
      simp only [weight] at *
      simp at *
      omega
    | cons r2 rs2 =>
      have h1 : serRecsBodyL (r :: r2 :: rs2) = serRecL r ++ ',' :: serRecsBodyL (r2 :: rs2) := rfl
      rw [h1]
      simp only [weight] at ih ⊢
      simp only [serRecL, List.length_append, List.length_cons]
      simp only [List.length_append, List.length_cons] at *
      omega

theorem serRecsBodyL_cons_head (r : FlatRec) (rs : List FlatRec) :
    ∃ tl, serRecsBodyL (r :: rs) = '{' :: tl := by
  cases rs with
  | nil => exact ⟨_, rfl⟩
  | cons r2 rs2 =>
    refine ⟨(serFieldsL r ++ ['}']) ++ ',' :: serRecsBodyL (r2 :: rs2), ?_⟩
    rfl

/-- The strict parse accepts a canonically serialized nonempty array of
simple flat records and yields exactly those records, in order. -/
theorem parseJson_ser (objs : List FlatRec) (hne : objs ≠ [])
    (hall : ∀ r ∈ objs, simpleRec r = true) :
    parseJson ('[' :: (serRecsBodyL objs ++ [']'])) = some (Json.arr (objs.map jsonOfRec)) := by
  obtain ⟨r, rs, rfl⟩ : ∃ r rs, objs = r :: rs := by
    cases objs with
    | nil => exact absurd rfl hne
    | cons r rs => exact ⟨r, rs, rfl⟩
  have hv : parseValue ((2 * ('[' :: (serRecsBodyL (r :: rs) ++ [']'])).length + 3) + 1)
        ('[' :: (serRecsBodyL (r :: rs) ++ [']']))
      = some (Json.arr ((r :: rs).map jsonOfRec), []) := by
    have harr : (parsers (2 * ('[' :: (serRecsBodyL (r :: rs) ++ [']'])).length + 3)).arrRest
        = parseArrayRest (2 * ('[' :: (serRecsBodyL (r :: rs) ++ [']'])).length + 3) := rfl
    show (parsersSucc (parsers (2 * ('[' :: (serRecsBodyL (r :: rs) ++ [']'])).length + 3))).val
        ('[' :: (serRecsBodyL (r :: rs) ++ [']'])) = _
    simp only [parsersSucc]
    rw [skipWs_cons_of_not_ws (by decide : isWsChar '[' = false)]
    simp only
    rw [if_neg (by decide : ¬('[' : Char) = '"')]
    simp only [if_true]
    obtain ⟨tl, htl⟩ := serRecsBodyL_cons_head r rs
    rw [htl]
    simp only [List.cons_append]
    rw [skipWs_cons_of_not_ws (by decide : isWsChar '{' = false)]
    split
    · rename_i r2 heq
      exact absurd (List.cons.injEq .. ▸ heq).1 (by decide)
    rw [← List.cons_append, ← htl, harr]
    have hbound : weight (r :: rs)
        ≤ 2 * ('[' :: (serRecsBodyL (r :: rs) ++ [']'])).length + 3 := by
      have := weight_le_body_length (r :: rs)
      simp only [List.length_cons, List.length_append] at *
      omega
    rw [parseArrayRest_ser (r :: rs) (by simp) hall [] _ hbound]
    rfl
  have hlen : 2 * ('[' :: (serRecsBodyL (r :: rs) ++ [']'])).length + 4
      = (2 * ('[' :: (serRecsBodyL (r :: rs) ++ [']'])).length + 3) + 1 := by omega
  rw [parseJson, hlen, hv]
  simp [skipWs]

theorem serRecL_getLast (r : FlatRec) : (serRecL r).getLast? = some '}' := by
  show (('{' :: serFieldsL r) ++ ['}']).getLast? = some '}'
  exact List.getLast?_concat _

theorem serRecsBodyL_getLast : ∀ (objs : List FlatRec), objs ≠ [] →
    (serRecsBodyL objs).getLast? = some '}' := by
  intro objs
  induction objs with
  | nil => intro h; exact absurd rfl h
  | cons r rs ih =>
    intro _
    cases rs with
    | nil => exact serRecL_getLast r
    | cons r2 rs2 =>
      have h1 : serRecsBodyL (r :: r2 :: rs2) = serRecL r ++ ',' :: serRecsBodyL (r2 :: rs2) := rfl
      rw [h1, List.getLast?_append]
      have h2 : (',' :: serRecsBodyL (r2 :: rs2)).getLast? = some '}' := by
        have h3 : (',' :: serRecsBodyL (r2 :: rs2)) = [','] ++ serRecsBodyL (r2 :: rs2) := rfl
        rw [h3, List.getLast?_append, ih (by simp)]
        rfl
      rw [h2]
      rfl

theorem jsTrimR_decomp (l : List Char) : ∃ w, l = jsTrimR l ++ w := by
  refine ⟨(l.reverse.takeWhile isWsChar).reverse, ?_⟩
  have h1 : l.reverse = l.reverse.takeWhile isWsChar ++ l.reverse.dropWhile isWsChar :=
    (List.takeWhile_append_dropWhile ..).symm
  have h2 := congrArg List.reverse h1
  rw [List.reverse_reverse, List.reverse_append] at h2
  exact h2

theorem fenceJson_not_prefix_of_bracket (c : Char) (hc : c ≠ '`') (X : List Char) :
    ("```json".data).isPrefixOf (c :: X) = false := by
  have : ('`' == c) = false := by
    cases hbe : ('`' == c)
    · rfl
    · exact absurd (eq_of_beq hbe).symm hc
  simp [List.isPrefixOf, this]

theorem fence_not_prefix_of_bracket (c : Char) (hc : c ≠ '`') (X : List Char) :
    ("```".data).isPrefixOf (c :: X) = false := by
  have : ('`' == c) = false := by
    cases hbe : ('`' == c)
    · rfl
    · exact absurd (eq_of_beq hbe).symm hc
  simp [List.isPrefixOf, this]

theorem stripFences_of_not_backtick {c : Char} (hc : c ≠ '`') (X : List Char) :
    stripFences (c :: X) = c :: X := by
  rw [stripFences, fenceJson_not_prefix_of_bracket c hc X, fence_not_prefix_of_bracket c hc X]
  simp

/-- Core of the truncation claim: on an array truncated mid-object
whose dangling fragment contains no `}`, the repair ladder recovers
exactly the complete objects. -/
theorem truncated_repair_ok (input : String) (objs : List FlatRec) (t : String)
    (hcls : TruncatedMidObject input objs t) (hnb : ∀ c ∈ t.data, c ≠ '}') :
    normalizeResponse input = Except.ok (objs.map jsonOfRec) := by
  obtain ⟨hne, hsimp, hinput, ⟨robj, rrest, hsr, hser, hrne, htne⟩, hdirect⟩ := hcls
  have hserdata : serRecL robj = t.data ++ rrest.data := by
    have h := congrArg String.data hser
    simpa [serializeRec, String.data_append] using h
  have hhead : serRecL robj = '{' :: (serFieldsL robj ++ ['}']) := by
    simp [serRecL]
  have htd : ∃ t', t.data = '{' :: t' := by
    cases htd : t.data with
    | nil =>
      exfalso
      apply htne
      cases t with
      | mk d =>
        have hd : d = [] := htd
        subst hd
        rfl
    | cons c t' =>
      rw [htd, hhead] at hserdata
      have hc : '{' = c := (List.cons.injEq .. ▸ hserdata).1
      exact ⟨t', by rw [← hc]⟩
  have hdata : input.data = '[' :: (serRecsBodyL objs ++ ',' :: t.data) := by
    have h := congrArg String.data hinput
    simpa [String.data_append, serializeRecsBody] using h
  have hne' : input ≠ "" := by
    intro h
    rw [h] at hdata
    exact absurd hdata (by simp [show ("" : String).data = [] from rfl])
  obtain ⟨t', ht'⟩ := htd
  have ht2ne : jsTrimR t.data ≠ [] :=
    jsTrimR_ne_nil (c := '{') (by rw [ht']; simp) (by decide)
  obtain ⟨w, hw⟩ := jsTrimR_decomp t.data
  have ht2head : ∃ t2', jsTrimR t.data = '{' :: t2' := by
    cases h2 : jsTrimR t.data with
    | nil => exact absurd h2 ht2ne
    | cons c cs =>
      rw [h2, ht'] at hw
      have hc : '{' = c := (List.cons.injEq .. ▸ hw).1
      exact ⟨cs, by rw [← hc]⟩
  have htrim : jsTrim input.data = '[' :: (serRecsBodyL objs ++ ',' :: jsTrimR t.data) := by
    rw [hdata, jsTrim, jsTrimL_cons_of_not_ws (by decide)]
    have hshape : '[' :: (serRecsBodyL objs ++ ',' :: t.data)
        = ('[' :: (serRecsBodyL objs ++ [','])) ++ t.data := by simp
    rw [hshape, jsTrimR_append_of_ne_nil ht2ne]
    simp
  have hstrip : stripText input = '[' :: (serRecsBodyL objs ++ ',' :: jsTrimR t.data) := by
    rw [stripText, htrim, stripFences_of_not_backtick (by decide)]
  have hdirect2 : parseJson ('[' :: (serRecsBodyL objs ++ ',' :: jsTrimR t.data)) = none := by
    have hdp : directParse input = parseJson (stripText input) := rfl
    rw [hdp, hstrip] at hdirect
    exact hdirect
  have hrjp : robustJsonParse input
      = repairParse ('[' :: (serRecsBodyL objs ++ ',' :: jsTrimR t.data)) := by
    show (match parseJson (stripFences (jsTrim input.data)) with
          | some v => Except.ok v
          | none => repairParse (stripFences (jsTrim input.data))) = _
    have hst : stripFences (jsTrim input.data)
        = '[' :: (serRecsBodyL objs ++ ',' :: jsTrimR t.data) := hstrip
    rw [hst, hdirect2]
  have hnb2 : '}' ∉ ',' :: jsTrimR t.data := by
    intro hmem
    rcases List.mem_cons.mp hmem with h | h
    · exact absurd h (by decide)
    · exact (hnb '}' (by rw [hw]; exact List.mem_append_left _ h)) rfl
  have hbody_last : ('[' :: serRecsBodyL objs).getLast? = some '}' := by
    have h1 : ('[' :: serRecsBodyL objs) = ['['] ++ serRecsBodyL objs := rfl
    rw [h1, List.getLast?_append, serRecsBodyL_getLast objs hne]
    rfl
  have hrepair : repairParse ('[' :: (serRecsBodyL objs ++ ',' :: jsTrimR t.data))
      = Except.ok (Json.arr (objs.map jsonOfRec)) := by
    rw [repairParse, dropUntilBracket_cons_bracket]
    simp only
    have hshape2 : '[' :: (serRecsBodyL objs ++ ',' :: jsTrimR t.data)
        = ('[' :: serRecsBodyL objs) ++ (',' :: jsTrimR t.data) := by simp
    rw [hshape2, takeThroughLastBrace_append (by simp) hbody_last hnb2]
    simp only
    rw [show (('[' :: serRecsBodyL objs) ++ [']'] : List Char)
        = '[' :: (serRecsBodyL objs ++ [']']) from by simp]
    rw [parseJson_ser objs hne hsimp]
    simp [wrapArr]
  rw [normalizeResponse, if_neg hne', hrjp, hrepair]

/-! ## Lemmas: counting marker occurrences across concatenation -/

theorem countSub_nil {m : List Char} (hm : m ≠ []) : countSub m [] = 0 := by
  cases m with
  | nil => exact absurd rfl hm
  | cons c t => simp [countSub, List.isPrefixOf]

theorem prefix_of_append_of_le {m x y : List Char} (h : m <+: x ++ y)
    (hle : m.length ≤ x.length) : m <+: x := by
  have h1 : m = List.take m.length (x ++ y) := List.prefix_iff_eq_take.mp h
  rw [List.take_append_eq_append_take] at h1
  have h0 : m.length - x.length = 0 := by omega
  rw [h0, List.take_zero, List.append_nil] at h1
  rw [h1]
  exact List.take_prefix ..

theorem spanning_decomp {m x b : List Char} (h : m <+: x ++ b) (hnx : ¬m <+: x) :
    ∃ m2, m = x ++ m2 ∧ m2 <+: b ∧ m2 ≠ [] := by
  have hlt : x.length < m.length := by
    by_contra hc
    exact hnx (prefix_of_append_of_le h (by omega))
  rw [List.prefix_iff_eq_take, List.take_append_eq_append_take,
    List.take_of_length_le (by omega)] at h
  refine ⟨List.take (m.length - x.length) b, h, List.take_prefix .. , ?_⟩
  intro hnil
  rw [hnil, List.append_nil] at h
  rw [h] at hlt
  exact absurd hlt (by omega)

theorem countSub_append_right {m b : List Char} (hm : m ≠ [])
    (hb : ∀ c, b.head? = some c → c ∉ m) (a : List Char) :
    countSub m (a ++ b) = countSub m a + countSub m b := by
  induction a with
  | nil => simp [countSub_nil hm]
  | cons x a ih =>
    simp only [List.cons_append, countSub, ih, List.append_eq]
    have heq : m.isPrefixOf (x :: (a ++ b)) = m.isPrefixOf (x :: a) := by
      rcases hpx : m.isPrefixOf (x :: a) with _ | _
      · rcases hpb : m.isPrefixOf (x :: (a ++ b)) with _ | _
        · rfl
        · exfalso
          have hpre : m <+: (x :: a) ++ b := by
            rw [← List.isPrefixOf_iff_prefix, List.cons_append]
            exact hpb
          have hnpre : ¬m <+: x :: a := by
            rw [← List.isPrefixOf_iff_prefix, hpx]
            simp
          obtain ⟨m2, hm2, hm2b, hm2ne⟩ := spanning_decomp hpre hnpre
          obtain ⟨c, cs, rfl⟩ : ∃ c cs, m2 = c :: cs := by
            cases m2 with
            | nil => exact absurd rfl hm2ne
            | cons c cs => exact ⟨c, cs, rfl⟩
          have hbh : b.head? = some c := by
            obtain ⟨rest2, hrest2⟩ := hm2b
            rw [← hrest2]
            rfl
          exact hb c hbh (by rw [hm2]; simp)
      · rcases hpb : m.isPrefixOf (x :: (a ++ b)) with _ | _
        · exfalso
          have hpre : m <+: x :: a := by rw [← List.isPrefixOf_iff_prefix, hpx]
          have : m <+: x :: (a ++ b) := by
            have h2 : m <+: (x :: a) ++ b := hpre.trans (List.prefix_append ..)
            rw [List.cons_append] at h2
            exact h2
          rw [← List.isPrefixOf_iff_prefix, hpb] at this
          simp at this
        · rfl
    simp only [heq]
    omega

theorem countSub_append_left {m a : List Char} (hm : m ≠ [])
    (ha : ∀ c, a.getLast? = some c → c ∉ m) (b : List Char) :
    countSub m (a ++ b) = countSub m a + countSub m b := by
  induction a with
  | nil => simp [countSub_nil hm]
  | cons x a ih =>
    have ihapp : countSub m (a ++ b) = countSub m a + countSub m b := by
      apply ih
      intro c hc
      apply ha
      cases a with
      | nil => simp at hc
      | cons y ys => rw [List.getLast?_cons_cons]; exact hc
    simp only [List.cons_append, countSub, ihapp, List.append_eq]
    have heq : m.isPrefixOf (x :: (a ++ b)) = m.isPrefixOf (x :: a) := by
      rcases hpx : m.isPrefixOf (x :: a) with _ | _
      · rcases hpb : m.isPrefixOf (x :: (a ++ b)) with _ | _
        · rfl
        · exfalso
          have hpre : m <+: (x :: a) ++ b := by
            rw [← List.isPrefixOf_iff_prefix, List.cons_append]
            exact hpb
          have hnpre : ¬m <+: x :: a := by
            rw [← List.isPrefixOf_iff_prefix, hpx]
            simp
          obtain ⟨m2, hm2, hm2b, hm2ne⟩ := spanning_decomp hpre hnpre
          have hglast : (x :: a).getLast? = some ((x :: a).getLast (by simp)) :=
            List.getLast?_eq_getLast ..
          apply ha _ hglast
          rw [hm2]
          exact List.mem_append_left _ (List.getLast_mem _)
      · rcases hpb : m.isPrefixOf (x :: (a ++ b)) with _ | _
        · exfalso
          have hpre : m <+: x :: a := by rw [← List.isPrefixOf_iff_prefix, hpx]
          have : m <+: x :: (a ++ b) := by
            have h2 : m <+: (x :: a) ++ b := hpre.trans (List.prefix_append ..)
            rw [List.cons_append] at h2
            exact h2
          rw [← List.isPrefixOf_iff_prefix, hpb] at this
          simp at this
        · rfl
    simp only [heq]
    omega

/-! ## Lemmas: substring containment -/

theorem isPrefixOf_append_self : ∀ (p b : List Char), p.isPrefixOf (p ++ b) = true
  | [], _ => by simp [List.isPrefixOf]
  | c :: p, b => by simp [List.isPrefixOf, isPrefixOf_append_self p b]

theorem containsSubstrL_append (a p b : List Char) : containsSubstrL p (a ++ p ++ b) = true := by
  induction a with
  | nil =>
    simp only [List.nil_append]
    cases hq : p ++ b with
    | nil =>
      obtain ⟨hp, hb⟩ := List.append_eq_nil.mp hq
      subst hp
      simp [containsSubstrL]
    | cons c t =>
      have h1 : p.isPrefixOf (p ++ b) = true := isPrefixOf_append_self p b
      rw [hq] at h1
      simp [containsSubstrL, h1]
  | cons x a ih =>
    simp only [List.cons_append, containsSubstrL]
    simp only [List.append_assoc] at ih ⊢
    simp [ih]

/-- `includes` holds for any string sandwiched between two others. -/
theorem containsSubstr_middle (x s y : String) : containsSubstr (x ++ s ++ y) s = true := by
  simp only [containsSubstr, String.data_append]
  simpa using containsSubstrL_append x.data s.data y.data

/-! ## Lemmas: the markdown fence strip -/

theorem fence_prefix_of_fenceJson {l : List Char}
    (h : ("```json".data).isPrefixOf l = true) : ("```".data).isPrefixOf l = true := by
  have h1 : "```json".data <+: l := List.isPrefixOf_iff_prefix.mp h
  have h2 : "```".data <+: "```json".data := ⟨"json".data, rfl⟩
  exact List.isPrefixOf_iff_prefix.mpr (h2.trans h1)

theorem stripFences_of_not_fence {l : List Char} (h : ("```".data).isPrefixOf l = false) :
    stripFences l = l := by
  have hj : ("```json".data).isPrefixOf l = false := by
    cases hb : ("```json".data).isPrefixOf l
    · rfl
    · rw [fence_prefix_of_fenceJson hb] at h
      simp at h
  simp [stripFences, hj, h]

theorem jsTrim_of_ends_not_ws {c d : Char} (hc : isWsChar c = false) (hd : isWsChar d = false)
    (mid : List Char) : jsTrim (c :: (mid ++ [d])) = c :: (mid ++ [d]) := by
  rw [jsTrim, jsTrimL_cons_of_not_ws hc]
  have h1 : c :: (mid ++ [d]) = (c :: mid) ++ [d] := by simp
  rw [h1, jsTrimR_append_last hd]

/-- Computation of the strip on a json-tagged fenced wrap. -/
theorem stripText_wrapJson (s : String) :
    stripText (wrapJsonFence s) = jsTrim s.data := by
  have hdata : (wrapJsonFence s).data
      = "```json".data ++ ('\n' :: (s.data ++ ['\n', '`', '`', '`'])) := by
    simp [wrapJsonFence, String.data_append]
  have htrim : jsTrim (wrapJsonFence s).data = (wrapJsonFence s).data := by
    rw [hdata]
    have hshape : ("```json".data ++ ('\n' :: (s.data ++ ['\n', '`', '`', '`'])))
        = '`' :: ((['`', '`', 'j', 's', 'o', 'n', '\n'] ++ (s.data ++ ['\n', '`', '`'])) ++ ['`']) := by
      simp
    rw [hshape, jsTrim_of_ends_not_ws (by decide) (by decide)]
  rw [stripText, htrim, hdata, stripFences]
  rw [isPrefixOf_append_self]
  simp only [if_true]
  rw [stripFenceAt]
  have hsuf : ("```".data).isSuffixOf
      ("```json".data ++ ('\n' :: (s.data ++ ['\n', '`', '`', '`']))) = true := by
    show (("```".data).reverse).isPrefixOf
      (("```json".data ++ ('\n' :: (s.data ++ ['\n', '`', '`', '`']))).reverse) = true
    have hshape2 : ("```json".data ++ ('\n' :: (s.data ++ ['\n', '`', '`', '`'])))
        = ("```json".data ++ ('\n' :: s.data ++ ['\n'])) ++ "```".data := by
      simp
    rw [hshape2, List.reverse_append]
    exact isPrefixOf_append_self ..
  rw [hsuf]
  simp only [if_true]
  have hdrop : (("```json".data ++ ('\n' :: (s.data ++ ['\n', '`', '`', '`'])))).drop 7
      = '\n' :: (s.data ++ ['\n', '`', '`', '`']) := by
    have h7 : ("```json".data).length = 7 := rfl
    rw [← h7, List.drop_left]
  have hlen : ("```json".data ++ ('\n' :: (s.data ++ ['\n', '`', '`', '`']))).length - (7 + 3)
      = ('\n' :: (s.data ++ ['\n'])).length := by
    simp
  rw [hdrop, hlen]
  have htake : ('\n' :: (s.data ++ ['\n', '`', '`', '`'])).take ('\n' :: (s.data ++ ['\n'])).length
      = '\n' :: (s.data ++ ['\n']) := by
    have hshape3 : ('\n' :: (s.data ++ ['\n', '`', '`', '`']))
        = ('\n' :: (s.data ++ ['\n'])) ++ ['`', '`', '`'] := by simp
    rw [hshape3, List.take_left]
  rw [htake]
  rw [jsTrim_cons_ws (by decide)]
  exact jsTrim_append_ws (by decide) s.data

/-- Computation of the strip on an untagged fenced wrap. -/
theorem stripText_wrapPlain (s : String) :
    stripText (wrapPlainFence s) = jsTrim s.data := by
  have hdata : (wrapPlainFence s).data
      = "```".data ++ ('\n' :: (s.data ++ ['\n', '`', '`', '`'])) := by
    simp [wrapPlainFence, String.data_append]
  have htrim : jsTrim (wrapPlainFence s).data = (wrapPlainFence s).data := by
    rw [hdata]
    have hshape : ("```".data ++ ('\n' :: (s.data ++ ['\n', '`', '`', '`'])))
        = '`' :: ((['`', '`', '\n'] ++ (s.data ++ ['\n', '`', '`'])) ++ ['`']) := by
      simp
    rw [hshape, jsTrim_of_ends_not_ws (by decide) (by decide)]
  rw [stripText, htrim, hdata, stripFences]
  have hnj : ("```json".data).isPrefixOf
      ("```".data ++ ('\n' :: (s.data ++ ['\n', '`', '`', '`']))) = false := by
    have hne1 : ('j' == '\n') = false := by decide
    simp [List.isPrefixOf, hne1]
  rw [hnj]
  simp only [Bool.false_eq_true, if_false]
  rw [isPrefixOf_append_self]
  simp only [if_true]
  rw [stripFenceAt]
  have hsuf : ("```".data).isSuffixOf
      ("```".data ++ ('\n' :: (s.data ++ ['\n', '`', '`', '`']))) = true := by
    show (("```".data).reverse).isPrefixOf
      (("```".data ++ ('\n' :: (s.data ++ ['\n', '`', '`', '`']))).reverse) = true
    have hshape2 : ("```".data ++ ('\n' :: (s.data ++ ['\n', '`', '`', '`'])))
        = ("```".data ++ ('\n' :: s.data ++ ['\n'])) ++ "```".data := by
      simp
    rw [hshape2, List.reverse_append]
    exact isPrefixOf_append_self ..
  rw [hsuf]
  simp only [if_true]
  have hdrop : (("```".data ++ ('\n' :: (s.data ++ ['\n', '`', '`', '`'])))).drop 3
      = '\n' :: (s.data ++ ['\n', '`', '`', '`']) := by
    have h3 : ("```".data).length = 3 := rfl
    rw [← h3, List.drop_left]
  have hlen : ("```".data ++ ('\n' :: (s.data ++ ['\n', '`', '`', '`']))).length - (3 + 3)
      = ('\n' :: (s.data ++ ['\n'])).length := by
    simp
  rw [hdrop, hlen]
  have htake : ('\n' :: (s.data ++ ['\n', '`', '`', '`'])).take ('\n' :: (s.data ++ ['\n'])).length
      = '\n' :: (s.data ++ ['\n']) := by
    have hshape3 : ('\n' :: (s.data ++ ['\n', '`', '`', '`']))
        = ('\n' :: (s.data ++ ['\n'])) ++ ['`', '`', '`'] := by simp
    rw [hshape3, List.take_left]
  rw [htake]
  rw [jsTrim_cons_ws (by decide)]
  exact jsTrim_append_ws (by decide) s.data

/-! ## Lemmas: unfolding the normalization pipeline -/

theorem robustJsonParse_eq_ok {s : String} {v : Json}
    (h : parseJson (stripText s) = some v) : robustJsonParse s = Except.ok v := by
  show (match parseJson (stripText s) with
        | some v => Except.ok v
        | none => repairParse (stripText s)) = Except.ok v
  rw [h]

theorem robustJsonParse_eq_repair {s : String}
    (h : parseJson (stripText s) = none) : robustJsonParse s = repairParse (stripText s) := by
  show (match parseJson (stripText s) with
        | some v => Except.ok v
        | none => repairParse (stripText s)) = repairParse (stripText s)
  rw [h]

theorem robustJsonParse_congr {s₁ s₂ : String} (h : stripText s₁ = stripText s₂) :
    robustJsonParse s₁ = robustJsonParse s₂ := by
  show (match parseJson (stripText s₁) with
        | some v => Except.ok v
        | none => repairParse (stripText s₁))
      = (match parseJson (stripText s₂) with
        | some v => Except.ok v
        | none => repairParse (stripText s₂))
  rw [h]

theorem normalizeResponse_err {s : String} (h : s ≠ "") {e : String}
    (hr : robustJsonParse s = Except.error e) : normalizeResponse s = Except.error e := by
  simp only [normalizeResponse, if_neg h, hr]

theorem normalizeResponse_arr {s : String} (h : s ≠ "") {items : List Json}
    (hr : robustJsonParse s = Except.ok (Json.arr items)) :
    normalizeResponse s = Except.ok items := by
  simp only [normalizeResponse, if_neg h, hr]

theorem normalizeResponse_obj {s : String} (h : s ≠ "") {flds : List (String × Json)}
    (hr : robustJsonParse s = Except.ok (Json.obj flds)) :
    normalizeResponse s = Except.error formatMsg := by
  simp only [normalizeResponse, if_neg h, hr]

theorem normalizeResponse_congr {s₁ s₂ : String} (h₁ : s₁ ≠ "") (h₂ : s₂ ≠ "")
    (h : stripText s₁ = stripText s₂) :
    normalizeResponse s₁ = normalizeResponse s₂ := by
  simp only [normalizeResponse, if_neg h₁, if_neg h₂, robustJsonParse_congr h]

theorem repairParse_noBracket {text : List Char} (h : dropUntilBracket text = none) :
    repairParse text = Except.error notArrayMsg := by
  simp only [repairParse, h]

theorem repairParse_noBrace {text tail : List Char} (hd : dropUntilBracket text = some tail)
    (ht : takeThroughLastBrace tail = none) :
    repairParse text = Except.ok (Json.arr []) := by
  simp only [repairParse, hd, ht]

theorem repairParse_fail {text tail seg : List Char} (hd : dropUntilBracket text = some tail)
    (ht : takeThroughLastBrace tail = some seg)
    (hc : parseJson (seg ++ [']']) = none) (hb : parseJson seg = none) :
    repairParse text = Except.error malformedMsg := by
  simp only [repairParse, hd, ht, hc, hb]

/-! ## Lemmas: shapes of the repair slices -/

theorem dropWhile_head_false {p : Char → Bool} :
    ∀ {l : List Char} {c : Char} {t : List Char}, l.dropWhile p = c :: t → p c = false := by
  intro l
  induction l with
  | nil => intro c t h; exact absurd h (by simp)
  | cons x xs ih =>
    intro c t h
    rw [List.dropWhile_cons] at h
    split at h
    · exact ih h
    · next hx =>
      injection h with h1 h2
      subst h1
      simpa using hx

theorem dropUntilBracket_some {l tail : List Char} (h : dropUntilBracket l = some tail) :
    ∃ t, tail = '[' :: t := by
  rw [dropUntilBracket] at h
  split at h
  · next hc =>
    injection h with h
    subst h
    cases hdw : l.dropWhile notBracketB with
    | nil =>
      exfalso
      have hmem : '[' ∈ l := by simpa using hc
      have hall := dropWhile_nil_all hdw '[' hmem
      simp [notBracketB] at hall
    | cons c t =>
      have hc0 : notBracketB c = false := dropWhile_head_false hdw
      have hcb : c = '[' := by simpa [notBracketB] using hc0
      exact ⟨t, by rw [hcb]⟩
  · exact absurd h (by simp)

theorem takeThroughLastBrace_some {l seg : List Char} (h : takeThroughLastBrace l = some seg) :
    ∃ w, l = seg ++ w ∧ seg ≠ [] ∧ seg.getLast? = some '}' := by
  rw [takeThroughLastBrace] at h
  cases heq : l.reverse.dropWhile notBraceB with
  | nil =>
    rw [heq] at h
    exact absurd h (by simp)
  | cons c t =>
    rw [heq] at h
    simp only at h
    injection h with h
    subst h
    have hc0 : notBraceB c = false := dropWhile_head_false heq
    have hcb : c = '}' := by simpa [notBraceB] using hc0
    refine ⟨(l.reverse.takeWhile notBraceB).reverse, ?_, by simp, ?_⟩
    · have hsplit : l.reverse.takeWhile notBraceB ++ l.reverse.dropWhile notBraceB = l.reverse :=
        List.takeWhile_append_dropWhile ..
      rw [heq] at hsplit
      have := congrArg List.reverse hsplit
      simpa [List.reverse_append] using this.symm
    · rw [List.getLast?_reverse]
      simp [hcb]

/-! ## Lemmas: containment in concatenations -/

theorem containsSubstrL_appL {p b : List Char} (h : containsSubstrL p b = true) (a : List Char) :
    containsSubstrL p (a ++ b) = true := by
  induction a with
  | nil => simpa using h
  | cons x a ih =>
    simp only [List.cons_append, containsSubstrL, Bool.or_eq_true]
    right
    exact ih

theorem containsSubstrL_appR {p a : List Char} (h : containsSubstrL p a = true) (b : List Char) :
    containsSubstrL p (a ++ b) = true := by
  induction a with
  | nil =>
    have hp : p = [] := by
      cases p with
      | nil => rfl
      | cons c t => simp [containsSubstrL, List.isPrefixOf] at h
    subst hp
    cases b with
    | nil => simpa using h
    | cons c t => simp [containsSubstrL, List.isPrefixOf]
  | cons x a ih =>
    simp only [containsSubstrL, Bool.or_eq_true] at h
    simp only [List.cons_append, containsSubstrL, Bool.or_eq_true]
    rcases h with h1 | h2
    · left
      have hpre : p <+: x :: a := List.isPrefixOf_iff_prefix.mp h1
      have h3 : p <+: (x :: a) ++ b := hpre.trans (List.prefix_append ..)
      rw [List.cons_append] at h3
      exact List.isPrefixOf_iff_prefix.mpr h3
    · right
      exact ih h2

theorem containsSubstrL_self (p b : List Char) : containsSubstrL p (p ++ b) = true := by
  simpa using containsSubstrL_append [] p b

theorem containsSubstrL_refl (p : List Char) : containsSubstrL p p = true := by
  simpa using containsSubstrL_self p []

/-! ## Lemmas: boundary conditions for occurrence counting -/

theorem head_notin_of_head_eq {b m : List Char} {d : Char} (hb : b.head? = some d)
    (hd : d ∉ m) : ∀ c, b.head? = some c → c ∉ m := by
  intro c hc
  rw [hb] at hc
  injection hc with hc
  subst hc
  exact hd

theorem last_notin_of_last_eq {a m : List Char} {d : Char} (ha : a.getLast? = some d)
    (hd : d ∉ m) : ∀ c, a.getLast? = some c → c ∉ m := by
  intro c hc
  rw [ha] at hc
  injection hc with hc
  subst hc
  exact hd

/-! ## Occurrence counts of the "Not provided" marker in the template chunks -/

set_option maxRecDepth 1000000 in
set_option maxHeartbeats 2000000 in
theorem countSub_marker_promptTask1 : countSub "Not provided".data promptTask1.data = 0 := by
  decide

set_option maxRecDepth 1000000 in
set_option maxHeartbeats 2000000 in
theorem countSub_marker_promptTask2 : countSub "Not provided".data promptTask2.data = 0 := by
  decide

set_option maxRecDepth 1000000 in
set_option maxHeartbeats 2000000 in
theorem countSub_marker_promptTask3 : countSub "Not provided".data promptTask3.data = 0 := by
  decide

theorem countSub_marker_promptTask : countSub "Not provided".data promptTask.data = 0 := by
  have hm : ("Not provided".data) ≠ [] := by decide
  have hdata : promptTask.data = (promptTask1.data ++ promptTask2.data) ++ promptTask3.data := rfl
  have h3 : promptTask3.data.head? = some '\n' := rfl
  have h2 : promptTask2.data.head? = some '\n' := rfl
  rw [hdata, countSub_append_right hm (head_notin_of_head_eq h3 (by decide)),
    countSub_append_right hm (head_notin_of_head_eq h2 (by decide)),
    countSub_marker_promptTask1, countSub_marker_promptTask2, countSub_marker_promptTask3]

set_option maxRecDepth 1000000 in
set_option maxHeartbeats 2000000 in
theorem countSub_marker_promptIntro : countSub "Not provided".data promptIntro.data = 0 := by
  decide

set_option maxRecDepth 400000 in
theorem countSub_marker_promptAnalyze : countSub "Not provided".data promptAnalyze.data = 0 := by
  decide

theorem countSub_marker_nn : countSub "Not provided".data ("\n\n" : String).data = 0 := by
  decide

set_option maxRecDepth 400000 in
theorem countSub_marker_figmaEmpty : countSub "Not provided".data (figmaSectionOf "").data = 1 := by
  decide

set_option maxRecDepth 400000 in
theorem countSub_marker_imageZero : countSub "Not provided".data (imageSectionOf 0).data = 1 := by
  decide

set_option maxRecDepth 400000 in
theorem countSub_marker_prdHeader :
    countSub "Not provided".data
      ("**1. Product Requirements Document (PRD) Content:**\n```\n" : String).data = 0 := by
  decide

theorem countSub_marker_prdClose : countSub "Not provided".data ("\n```" : String).data = 0 := by
  decide

set_option maxRecDepth 400000 in
theorem countSub_marker_focusHeader :
    countSub "Not provided".data
      ("**Primary Focus for this Generation:**\n---\n" : String).data = 0 := by
  decide

theorem countSub_marker_focusClose :
    countSub "Not provided".data ("\n---\n" : String).data = 0 := by
  decide

/-! ## The marker count of the assembled prompt -/

theorem countSub_marker_createPrompt (prd focus : String) (hprd : prd ≠ "") :
    countSubS (createPrompt prd "" 0 focus) notProvidedMarker
      = 2 + countSub "Not provided".data prd.data + countSub "Not provided".data focus.data := by
  have hm : ("Not provided".data) ≠ [] := by decide
  show countSub "Not provided".data (createPrompt prd "" 0 focus).data = _
  have hdata : (createPrompt prd "" 0 focus).data
      = (((((((promptIntro.data ++ (focusSectionOf focus).data) ++ promptAnalyze.data)
          ++ (prdSectionOf prd).data) ++ ("\n\n" : String).data) ++ (figmaSectionOf "").data)
          ++ ("\n\n" : String).data) ++ (imageSectionOf 0).data) ++ promptTask.data := by
    simp only [createPrompt, String.data_append]
  have hTh : promptTask.data.head? = some '\n' := rfl
  have hImh : (imageSectionOf 0).data.head? = some '*' := rfl
  have hNh : ("\n\n" : String).data.head? = some '\n' := rfl
  have hGh : (figmaSectionOf "").data.head? = some '*' := rfl
  have hPh : (prdSectionOf prd).data.head? = some '*' := by
    rw [prdSectionOf, if_pos hprd]
    simp only [String.data_append]
    rfl
  have hAh : promptAnalyze.data.head? = some '\n' := rfl
  rw [hdata,
    countSub_append_right hm (head_notin_of_head_eq hTh (by decide)),
    countSub_append_right hm (head_notin_of_head_eq hImh (by decide)),
    countSub_append_right hm (head_notin_of_head_eq hNh (by decide)),
    countSub_append_right hm (head_notin_of_head_eq hGh (by decide)),
    countSub_append_right hm (head_notin_of_head_eq hNh (by decide)),
    countSub_append_right hm (head_notin_of_head_eq hPh (by decide)),
    countSub_append_right hm (head_notin_of_head_eq hAh (by decide))]
  have hPdata : (prdSectionOf prd).data
      = (("**1. Product Requirements Document (PRD) Content:**\n```\n" : String).data ++ prd.data)
        ++ ("\n```" : String).data := by
    rw [prdSectionOf, if_pos hprd]
    simp only [String.data_append]
  have hPcl : ("\n```" : String).data.head? = some '\n' := rfl
  have hPhl : ("**1. Product Requirements Document (PRD) Content:**\n```\n" : String).data.getLast?
      = some '\n' := by decide
  rw [hPdata,
    countSub_append_right hm (head_notin_of_head_eq hPcl (by decide)),
    countSub_append_left hm (last_notin_of_last_eq hPhl (by decide))]
  by_cases hf : focus = ""
  · subst hf
    have hFdata : (focusSectionOf "").data = [] := rfl
    have h0 : ("" : String).data = [] := rfl
    rw [hFdata, List.append_nil, h0, countSub_nil hm,
      countSub_marker_promptIntro, countSub_marker_promptAnalyze, countSub_marker_prdHeader,
      countSub_marker_prdClose, countSub_marker_nn, countSub_marker_figmaEmpty,
      countSub_marker_imageZero, countSub_marker_promptTask]
    omega
  · have hFh : (focusSectionOf focus).data.head? = some '*' := by
      rw [focusSectionOf, if_pos hf]
      simp only [String.data_append]
      rfl
    rw [countSub_append_right hm (head_notin_of_head_eq hFh (by decide))]
    have hFdata : (focusSectionOf focus).data
        = (("**Primary Focus for this Generation:**\n---\n" : String).data ++ focus.data)
          ++ ("\n---\n" : String).data := by
      rw [focusSectionOf, if_pos hf]
      simp only [String.data_append]
    have hFcl : ("\n---\n" : String).data.head? = some '\n' := rfl
    have hFhl : ("**Primary Focus for this Generation:**\n---\n" : String).data.getLast?
        = some '\n' := by decide
    rw [hFdata,
      countSub_append_right hm (head_notin_of_head_eq hFcl (by decide)),
      countSub_append_left hm (last_notin_of_last_eq hFhl (by decide)),
      countSub_marker_promptIntro, countSub_marker_promptAnalyze, countSub_marker_prdHeader,
      countSub_marker_prdClose, countSub_marker_nn, countSub_marker_figmaEmpty,
      countSub_marker_imageZero, countSub_marker_promptTask, countSub_marker_focusHeader,
      countSub_marker_focusClose]
    omega

/-! # The claims -/

/-- Claim C1 is refuted as stated: for the truncated-array input
`[{"a":"b"},{"a":"}` — one complete object followed by a truncated
second object — the last `}` of the text lies inside the truncated
fragment's open string literal, so the repaired candidate is not valid
JSON and `normalizeResponse` fails with the malformed-response error
instead of returning the one complete object. -/
theorem c1_truncation_counterexample :
    TruncatedMidObject "[\x7b\"a\":\"b\"\x7d,\x7b\"a\":\"\x7d" [[("a", "b")]] "\x7b\"a\":\"\x7d"
    ∧ normalizeResponse "[\x7b\"a\":\"b\"\x7d,\x7b\"a\":\"\x7d" = Except.error malformedMsg
    ∧ (Except.error malformedMsg : Except String (List Json))
        ≠ Except.ok ([[("a", "b")]].map jsonOfRec) := by
  refine ⟨⟨by decide, by decide, by decide,
    ⟨[("a", "\x7dx")], "x\"\x7d", by decide, by decide, by decide, by decide⟩, rfl⟩, rfl, ?_⟩
  intro h
  exact Except.noConfusion h

/-- Claim C1 (amended): for every raw response that is a JSON array
truncated mid-object after at least one complete top-level object,
provided the dangling fragment contains no `}` character,
`normalizeResponse` succeeds and returns exactly the complete objects
that appear before the cut, in order. -/
theorem c1_truncation_amended (input : String) (objs : List FlatRec) (t : String)
    (hcls : TruncatedMidObject input objs t) (hnb : ∀ c ∈ t.data, c ≠ '}') :
    normalizeResponse input = Except.ok (objs.map jsonOfRec) :=
  truncated_repair_ok input objs t hcls hnb

/-- Witness for the amended claim C1 at the specification's own
example input: one complete object followed by a truncated second
object yields exactly the one complete record. -/
theorem c1_truncation_amended_witness :
    normalizeResponse
      "[\x7b\"testCaseId\":\"TC_001\",\"testScenario\":\"a\"\x7d,\x7b\"testCaseId\":\"TC_002\",\"testSc"
      = Except.ok ([[("testCaseId", "TC_001"), ("testScenario", "a")]].map jsonOfRec) :=
  c1_truncation_amended _ _ "\x7b\"testCaseId\":\"TC_002\",\"testSc"
    ⟨by decide, by decide, by decide,
      ⟨[("testCaseId", "TC_002"), ("testSc", "x")], "\":\"x\"\x7d",
        by decide, by decide, by decide, by decide⟩, rfl⟩
    (by decide)

/-- Claim C2 is refuted as stated: the boundary rules only apply when
the direct strict parse fails. The input `"x["` (a valid JSON string
containing `[`) parses directly, its stripped text contains `[` with
no `}` at or after it, yet `normalizeResponse` returns the
format error rather than the empty sequence. -/
theorem c2_boundary_counterexample :
    lastBraceBeforeFirstBracket (stripText "\"x[\"") = true
    ∧ normalizeResponse "\"x[\"" = Except.error formatMsg
    ∧ (Except.error formatMsg : Except String (List Json)) ≠ Except.ok [] := by
  refine ⟨by decide, rfl, ?_⟩
  intro h
  exact Except.noConfusion h

/-- Claim C2 (amended): when the direct strict parse of the stripped
text fails, the boundary rules hold: with no `[` in the stripped text
the result is the not-an-array error, and with a `[` present but no
`}` at or after the first `[` the result is the empty sequence; in
particular the inputs `"[]"` and `"["` both yield the empty sequence. -/
theorem c2_boundary_amended (s : String) (hne : s ≠ "") (hd : directParse s = none) :
    ((stripText s).contains '[' = false → normalizeResponse s = Except.error notArrayMsg)
    ∧ (lastBraceBeforeFirstBracket (stripText s) = true → normalizeResponse s = Except.ok [])
    ∧ normalizeResponse "[]" = Except.ok []
    ∧ normalizeResponse "[" = Except.ok [] := by
  refine ⟨?_, ?_, rfl, rfl⟩
  · intro hc
    have hdrop : dropUntilBracket (stripText s) = none := by
      rw [dropUntilBracket, if_neg]
      simpa using hc
    exact normalizeResponse_err hne
      ((robustJsonParse_eq_repair hd).trans (repairParse_noBracket hdrop))
  · intro hb
    obtain ⟨hc, hall⟩ : (stripText s).contains '[' = true
        ∧ ((stripText s).dropWhile notBracketB).all notBraceB = true := by
      simpa [lastBraceBeforeFirstBracket, Bool.and_eq_true] using hb
    have hdrop : dropUntilBracket (stripText s)
        = some ((stripText s).dropWhile notBracketB) := by
      rw [dropUntilBracket, if_pos hc]
    have hnb : '}' ∉ (stripText s).dropWhile notBracketB := by
      intro hmem
      have := List.all_eq_true.mp hall _ hmem
      simp [notBraceB] at this
    exact normalizeResponse_arr hne ((robustJsonParse_eq_repair hd).trans
      (repairParse_noBrace hdrop (takeThroughLastBrace_of_no_brace hnb)))

/-- Witness for the amended claim C2: an input with no `[` fails with
the not-an-array error; an input with `[` but no subsequent `}` yields
the empty sequence. -/
theorem c2_boundary_amended_witness :
    normalizeResponse "no-bracket" = Except.error notArrayMsg
    ∧ normalizeResponse "x[y" = Except.ok [] :=
  ⟨(c2_boundary_amended "no-bracket" (by decide) rfl).1 (by decide),
   (c2_boundary_amended "x[y" (by decide) rfl).2.1 (by decide)⟩

/-- Claim C3: if the direct strict parse of the stripped text fails
and the repair parse of the candidate string (first `[` through last
`}`, with `]` appended) also fails, `normalizeResponse` fails with the
distinct unrecoverable-malformation error — never a partial result.
(The final bare-slice attempt necessarily fails too: the slice starts
at `[` and ends at `}`.) -/
theorem c3_unrecoverable (s : String) (tail seg : List Char)
    (hd : directParse s = none)
    (hdrop : dropUntilBracket (stripText s) = some tail)
    (htake : takeThroughLastBrace tail = some seg)
    (hcand : parseJson (seg ++ [']']) = none) :
    normalizeResponse s = Except.error malformedMsg := by
  have hne : s ≠ "" := by
    intro h
    subst h
    rw [show stripText "" = [] from rfl,
      show dropUntilBracket [] = none from rfl] at hdrop
    exact Option.noConfusion hdrop
  obtain ⟨t', ht'⟩ := dropUntilBracket_some hdrop
  obtain ⟨w, hw, hsegne, hseglast⟩ := takeThroughLastBrace_some htake
  obtain ⟨c, cs, rfl⟩ : ∃ c cs, seg = c :: cs := by
    cases seg with
    | nil => exact absurd rfl hsegne
    | cons c cs => exact ⟨c, cs, rfl⟩
  rw [ht', List.cons_append] at hw
  have hcb : c = '[' := by
    injection hw with h1 _
    exact h1.symm
  subst hcb
  have hbare : parseJson ('[' :: cs) = none := parseJson_bracket_brace_none hseglast
  exact normalizeResponse_err hne ((robustJsonParse_eq_repair hd).trans
    (repairParse_fail hdrop htake hcand hbare))

/-- Witness for claim C3 at the input `[}`: both repair attempts fail
and the malformed-response error is produced. -/
theorem c3_unrecoverable_witness :
    normalizeResponse "[\x7d" = Except.error malformedMsg :=
  c3_unrecoverable "[\x7d" ['[', '}'] ['[', '}'] rfl rfl rfl rfl

theorem wrapJsonFence_ne_empty (s : String) : wrapJsonFence s ≠ "" := by
  intro h
  have h2 : (wrapJsonFence s).data
      = ("```json\n".data ++ s.data) ++ ("\n```" : String).data := by
    simp [wrapJsonFence, String.data_append]
  rw [h] at h2
  have h3 := h2.symm
  rw [show ("" : String).data = [] from rfl, List.append_eq_nil] at h3
  rw [List.append_eq_nil] at h3
  exact absurd h3.1.1 (by decide)

theorem wrapPlainFence_ne_empty (s : String) : wrapPlainFence s ≠ "" := by
  intro h
  have h2 : (wrapPlainFence s).data
      = ("```\n".data ++ s.data) ++ ("\n```" : String).data := by
    simp [wrapPlainFence, String.data_append]
  rw [h] at h2
  have h3 := h2.symm
  rw [show ("" : String).data = [] from rfl, List.append_eq_nil] at h3
  rw [List.append_eq_nil] at h3
  exact absurd h3.1.1 (by decide)

/-- Claim C4 is refuted as stated: fence stripping is not idempotent
with the trailing-fence slice. For the already-fenced text
`` ```\n["x"]\n``` `` the wrapped input's strip removes the outer
markers and leaves a dangling inner fence, the direct parse fails, and
the repair ladder returns the empty sequence — while the unwrapped
input itself normalizes to the one-element sequence `["x"]`. -/
theorem c4_fence_counterexample :
    normalizeResponse (wrapJsonFence "```\n[\"x\"]\n```") = Except.ok []
    ∧ normalizeResponse "```\n[\"x\"]\n```" = Except.ok [Json.str "x"]
    ∧ (Except.ok [] : Except String (List Json)) ≠ Except.ok [Json.str "x"] := by
  refine ⟨rfl, rfl, ?_⟩
  intro h
  injection h with h
  exact List.noConfusion h

/-- Claim C4 (amended): for every nonempty string whose trimmed text
does not itself begin with a markdown fence, wrapping it in a fenced
code block — with or without the `json` language tag — leaves the
result of `normalizeResponse` unchanged. -/
theorem c4_fence_amended (s : String) (hne : s ≠ "")
    (hnf : ("```".data).isPrefixOf (jsTrim s.data) = false) :
    normalizeResponse (wrapJsonFence s) = normalizeResponse s
    ∧ normalizeResponse (wrapPlainFence s) = normalizeResponse s := by
  have hs : stripText s = jsTrim s.data := by
    rw [stripText, stripFences_of_not_fence hnf]
  exact ⟨normalizeResponse_congr (wrapJsonFence_ne_empty s) hne
      ((stripText_wrapJson s).trans hs.symm),
    normalizeResponse_congr (wrapPlainFence_ne_empty s) hne
      ((stripText_wrapPlain s).trans hs.symm)⟩

/-- Witness for the amended claim C4 at `[]`: both fenced wraps
normalize identically to the bare input. -/
theorem c4_fence_amended_witness :
    normalizeResponse (wrapJsonFence "[]") = normalizeResponse "[]"
    ∧ normalizeResponse (wrapPlainFence "[]") = normalizeResponse "[]" :=
  c4_fence_amended "[]" (by decide) (by decide)

/-- Claim C5 is refuted as stated: normalization itself applies no
enum defaulting. A batch whose single record lacks the `domain`,
`suiteType` and `type` fields normalizes successfully to that record
unchanged — the `domain` read on the normalized record is still
absent, not `Functional`. -/
theorem c5_defaults_counterexample :
    normalizeResponse "[\x7b\"testCaseId\":\"TC_001\"\x7d]"
      = Except.ok [Json.obj [("testCaseId", Json.str "TC_001")]]
    ∧ jsField (Json.obj [("testCaseId", Json.str "TC_001")]) "domain" = none
    ∧ (none : Option Json) ≠ some (Json.str "Functional") := by
  refine ⟨rfl, rfl, ?_⟩
  intro h
  exact Option.noConfusion h

/-- Claim C5 (amended): the enum defaults are applied not by the
normalization but by the export-side row construction: a record with
no `domain` field is rendered with domain `Functional`, one with no
`suiteType` with `Regression`, and one with no `type` with
`Positive`. -/
theorem c5_defaults_amended (tc : Json)
    (hdom : jsField tc "domain" = none) (hsuite : jsField tc "suiteType" = none)
    (htype : jsField tc "type" = none) :
    (excelRowOf tc).domain = Json.str "Functional"
    ∧ (excelRowOf tc).testSuiteType = Json.str "Regression"
    ∧ (excelRowOf tc).caseType = Json.str "Positive" := by
  refine ⟨?_, ?_, ?_⟩ <;> simp [excelRowOf, jsLor, hdom, hsuite, htype]

/-- Witness for the amended claim C5 at the empty object: all three
enum columns receive their defaults. -/
theorem c5_defaults_amended_witness :
    (excelRowOf (Json.obj [])).domain = Json.str "Functional"
    ∧ (excelRowOf (Json.obj [])).testSuiteType = Json.str "Regression"
    ∧ (excelRowOf (Json.obj [])).caseType = Json.str "Positive" :=
  c5_defaults_amended (Json.obj []) rfl rfl rfl

/-- Claim C6 is refuted as stated: the single-object wrap is applied
only on the repair paths. When the direct strict parse already yields
a single object — as for the input `{"a":"b"}` — `normalizeResponse`
fails with the format error instead of returning a one-element
sequence. -/
theorem c6_wrap_counterexample :
    directParse "\x7b\"a\":\"b\"\x7d" = some (Json.obj [("a", Json.str "b")])
    ∧ normalizeResponse "\x7b\"a\":\"b\"\x7d" = Except.error formatMsg
    ∧ (Except.error formatMsg : Except String (List Json))
        ≠ Except.ok [Json.obj [("a", Json.str "b")]] := by
  refine ⟨rfl, rfl, ?_⟩
  intro h
  exact Except.noConfusion h

/-- Claim C6 (amended): on the repair paths every non-array parse
result is wrapped into a one-element array; but whenever the direct
parse yields a single object, `normalizeResponse` fails with the
format error rather than wrapping. -/
theorem c6_wrap_amended :
    (∀ v : Json, (∀ l, v ≠ Json.arr l) → wrapArr v = Json.arr [v])
    ∧ ∀ (s : String) (flds : List (String × Json)),
        directParse s = some (Json.obj flds) →
        normalizeResponse s = Except.error formatMsg := by
  constructor
  · intro v hv
    cases v with
    | arr l => exact absurd rfl (hv l)
    | null => rfl
    | bool b => rfl
    | num n => rfl
    | str s => rfl
    | obj f => rfl
  · intro s flds hd
    have hne : s ≠ "" := by
      intro h
      subst h
      rw [show directParse "" = none from rfl] at hd
      exact Option.noConfusion hd
    exact normalizeResponse_obj hne (robustJsonParse_eq_ok hd)

/-- Witness for the amended claim C6: the wrap on a bare object value,
and the format error for a directly-parsed single object `{}`. -/
theorem c6_wrap_amended_witness :
    wrapArr (Json.obj []) = Json.arr [Json.obj []]
    ∧ normalizeResponse "\x7b\x7d" = Except.error formatMsg :=
  ⟨c6_wrap_amended.1 (Json.obj []) (fun _ h => Json.noConfusion h),
   c6_wrap_amended.2 "\x7b\x7d" [] rfl⟩

/-- Claim C7 is refuted as stated: the validation tests the TRIMMED
document text and link, so a whitespace-only document text — a
non-empty input — with empty link and no images is still rejected
with the input-validation error. -/
theorem c7_validation_counterexample :
    (" " : String) ≠ ""
    ∧ prepareRequest (some "k") " " "" [] "" = Except.error validationMsg := by
  exact ⟨by decide, rfl⟩

/-- Claim C7 (amended): with an API key configured, the call is
rejected with the input-validation error — before any request is
assembled for the external generation call — exactly when the trimmed
document text is empty, the trimmed design link is empty and the image
list is empty; otherwise no validation rejection occurs and the
request for the external call is assembled. -/
theorem c7_validation_amended (k prdText figmaLink : String) (imageFiles : List ImageFile)
    (focusPrompt : String) :
    ((jsTrimS prdText = "" ∧ jsTrimS figmaLink = "" ∧ imageFiles = []) →
      prepareRequest (some k) prdText figmaLink imageFiles focusPrompt
        = Except.error validationMsg)
    ∧ (¬(jsTrimS prdText = "" ∧ jsTrimS figmaLink = "" ∧ imageFiles = []) →
      prepareRequest (some k) prdText figmaLink imageFiles focusPrompt
        = Except.ok ⟨createPrompt prdText figmaLink imageFiles.length focusPrompt,
            buildPartsMulti (createPrompt prdText figmaLink imageFiles.length focusPrompt)
              imageFiles⟩) := by
  constructor
  · intro h
    simp only [prepareRequest, if_pos h]
  · intro h
    simp only [prepareRequest, if_neg h]

/-- Witness for the amended claim C7: the all-empty request is
rejected; a request with document text is accepted with the assembled
prompt and parts. -/
theorem c7_validation_amended_witness :
    prepareRequest (some "k") "" "" [] "" = Except.error validationMsg
    ∧ prepareRequest (some "k") "x" "" [] ""
        = Except.ok ⟨createPrompt "x" "" 0 "", buildPartsMulti (createPrompt "x" "" 0 "") []⟩ :=
  ⟨(c7_validation_amended "k" "" "" [] "").1 ⟨rfl, rfl, rfl⟩,
   (c7_validation_amended "k" "x" "" [] "").2 (fun h => absurd h.1 (by decide))⟩

/-- Claim C9: once a request passes preparation, a failing generation
call whose error message contains the invalid-credential signature is
re-raised as the clarified invalid-key message, and every other error
message passes through to the caller unchanged. -/
theorem c9_error_passthrough (apiKey : Option String) (prdText figmaLink : String)
    (imageFiles : List ImageFile) (focusPrompt : String) (req : GenRequest) (e : String)
    (hok : prepareRequest apiKey prdText figmaLink imageFiles focusPrompt = Except.ok req) :
    (containsSubstr e apiKeySig = true →
      generateTestCases apiKey prdText figmaLink imageFiles focusPrompt (Except.error e)
        = Except.error invalidKeyMsg)
    ∧ (containsSubstr e apiKeySig = false →
      generateTestCases apiKey prdText figmaLink imageFiles focusPrompt (Except.error e)
        = Except.error e) := by
  constructor
  · intro hc
    simp [generateTestCases, hok, classifyMsg, hc]
  · intro hc
    simp [generateTestCases, hok, classifyMsg, hc]

/-- Witness for claim C9: an invalid-credential transport error is
rewritten to the clarified message; the error `boom` passes through
unchanged. -/
theorem c9_error_passthrough_witness :
    generateTestCases (some "k") "x" "" [] "" (Except.error "API key not valid.")
      = Except.error invalidKeyMsg
    ∧ generateTestCases (some "k") "x" "" [] "" (Except.error "boom")
      = Except.error "boom" :=
  ⟨(c9_error_passthrough (some "k") "x" "" [] ""
      ⟨createPrompt "x" "" 0 "", buildPartsMulti (createPrompt "x" "" 0 "") []⟩
      "API key not valid." rfl).1 (by decide),
   (c9_error_passthrough (some "k") "x" "" [] ""
      ⟨createPrompt "x" "" 0 "", buildPartsMulti (createPrompt "x" "" 0 "") []⟩
      "boom" rfl).2 (by decide)⟩

/-- Claim C10: in both single-image variants an image strictly above
4*1024*1024 bytes aborts with the size error before any part is
assembled (and an image within the limit is appended after the
instruction text); the multi-image variant applies no size limit — the
request it prepares always carries the instruction text first followed
by every supplied image, in input order. -/
theorem c10_image_limits :
    (∀ (prompt : String) (f : ImageFile), 4 * 1024 * 1024 < f.size →
      SingleImage.buildParts prompt (some f) = Except.error sizeMsg
      ∧ LegacyService.buildParts prompt (some f) = Except.error sizeMsg)
    ∧ (∀ (prompt : String) (f : ImageFile), f.size ≤ 4 * 1024 * 1024 →
      SingleImage.buildParts prompt (some f)
        = Except.ok [ContentPart.text prompt, fileToGenerativePart f])
    ∧ ∀ (k prdText figmaLink : String) (imageFiles : List ImageFile) (focusPrompt : String)
        (req : GenRequest),
        prepareRequest (some k) prdText figmaLink imageFiles focusPrompt = Except.ok req →
        req.parts = ContentPart.text req.prompt :: imageFiles.map fileToGenerativePart := by
  refine ⟨?_, ?_, ?_⟩
  · intro prompt f h
    constructor
    · simp only [SingleImage.buildParts, if_pos h]
    · simp only [LegacyService.buildParts, if_pos h]
  · intro prompt f h
    simp only [SingleImage.buildParts, if_neg (by omega : ¬f.size > 4 * 1024 * 1024)]
  · intro k prdText figmaLink imageFiles focusPrompt req hok
    simp only [prepareRequest] at hok
    split at hok
    · exact absurd hok (by simp)
    · injection hok with hok
      subst hok
      rfl

/-- Witness for claim C10: an oversized image is rejected by both
single-image variants, an in-limit image is encoded and appended, and
the multi-image request carries the text part followed by the image. -/
theorem c10_image_limits_witness :
    SingleImage.buildParts "p" (some ⟨4 * 1024 * 1024 + 1, "b", "m"⟩) = Except.error sizeMsg
    ∧ LegacyService.buildParts "p" (some ⟨4 * 1024 * 1024 + 1, "b", "m"⟩)
        = Except.error sizeMsg
    ∧ SingleImage.buildParts "p" (some ⟨7, "b", "m"⟩)
        = Except.ok [ContentPart.text "p", fileToGenerativePart ⟨7, "b", "m"⟩]
    ∧ (⟨createPrompt "x" "" 1 "", buildPartsMulti (createPrompt "x" "" 1 "") [⟨7, "b", "m"⟩]⟩
          : GenRequest).parts
        = ContentPart.text (⟨createPrompt "x" "" 1 "",
              buildPartsMulti (createPrompt "x" "" 1 "") [⟨7, "b", "m"⟩]⟩ : GenRequest).prompt
          :: [(⟨7, "b", "m"⟩ : ImageFile)].map fileToGenerativePart :=
  ⟨(c10_image_limits.1 "p" ⟨4 * 1024 * 1024 + 1, "b", "m"⟩ (by decide)).1,
   (c10_image_limits.1 "p" ⟨4 * 1024 * 1024 + 1, "b", "m"⟩ (by decide)).2,
   c10_image_limits.2.1 "p" ⟨7, "b", "m"⟩ (by decide),
   c10_image_limits.2.2 "k" "x" "" [⟨7, "b", "m"⟩] ""
     ⟨createPrompt "x" "" 1 "", buildPartsMulti (createPrompt "x" "" 1 "") [⟨7, "b", "m"⟩]⟩ rfl⟩

/-- Claim C8 is refuted as stated: the exactly-twice count of the
`Not provided` marker does not hold for every non-empty document text,
because the document text is embedded verbatim — a document text that
itself contains the marker raises the count. With document text
`Not provided`, empty link and zero images the prompt contains the
marker three times, not twice. -/
theorem c8_marker_counterexample :
    ("Not provided" : String) ≠ ""
    ∧ countSubS (createPrompt "Not provided" "" 0 "") notProvidedMarker = 3
    ∧ (3 : Nat) ≠ 2 := by
  refine ⟨by decide, ?_, by decide⟩
  rw [countSub_marker_createPrompt "Not provided" "" (by decide)]
  decide

/-- Claim C8 (amended): the prompt always contains a section header
for each of the three material categories, and for each empty optional
input the corresponding `Not provided` marker section is present
rather than the section being omitted; moreover, for non-empty
document text with empty link and zero images, provided neither the
document text nor the focus hint contains the marker themselves, the
prompt contains `Not provided` exactly twice and contains the document
text verbatim. -/
theorem c8_marker_amended (prdText figmaLink : String) (imageCount : Nat)
    (focusPrompt : String) :
    (containsSubstr (createPrompt prdText figmaLink imageCount focusPrompt)
        "**1. Product Requirements Document (PRD) Content:**" = true
      ∧ containsSubstr (createPrompt prdText figmaLink imageCount focusPrompt)
        "**2. Figma Design Link (for UI/UX reference):**" = true
      ∧ containsSubstr (createPrompt prdText figmaLink imageCount focusPrompt)
        "**3. Uploaded Images (" = true)
    ∧ (prdText = "" → containsSubstr (createPrompt prdText figmaLink imageCount focusPrompt)
        "**1. Product Requirements Document (PRD) Content:**\nNot provided." = true)
    ∧ (figmaLink = "" → containsSubstr (createPrompt prdText figmaLink imageCount focusPrompt)
        "**2. Figma Design Link (for UI/UX reference):**\nNot provided." = true)
    ∧ (imageCount = 0 → containsSubstr (createPrompt prdText figmaLink imageCount focusPrompt)
        "**3. Uploaded Images (for UI/UX and functional reference):**\nNot provided." = true)
    ∧ (prdText ≠ "" →
        countSub "Not provided".data prdText.data = 0 →
        countSub "Not provided".data focusPrompt.data = 0 →
        countSubS (createPrompt prdText "" 0 focusPrompt) notProvidedMarker = 2
        ∧ containsSubstr (createPrompt prdText "" 0 focusPrompt) prdText = true) := by
  have hdata : ∀ (p l : String) (n : Nat) (f : String), (createPrompt p l n f).data
      = (((((((promptIntro.data ++ (focusSectionOf f).data) ++ promptAnalyze.data)
          ++ (prdSectionOf p).data) ++ ("\n\n" : String).data)
          ++ (figmaSectionOf l).data) ++ ("\n\n" : String).data)
          ++ (imageSectionOf n).data) ++ promptTask.data := by
    intro p l n f
    simp only [createPrompt, String.data_append]
  refine ⟨⟨?_, ?_, ?_⟩, ?_, ?_, ?_, ?_⟩
  · show containsSubstrL ("**1. Product Requirements Document (PRD) Content:**".data)
      (createPrompt prdText figmaLink imageCount focusPrompt).data = true
    rw [hdata]
    apply containsSubstrL_appR
    apply containsSubstrL_appR
    apply containsSubstrL_appR
    apply containsSubstrL_appR
    apply containsSubstrL_appR
    apply containsSubstrL_appL
    by_cases hp : prdText = ""
    · subst hp
      decide
    · rw [prdSectionOf, if_pos hp,
        show (("**1. Product Requirements Document (PRD) Content:**\n```\n" ++ prdText
            ++ "\n```") : String).data
          = (("**1. Product Requirements Document (PRD) Content:**\n```\n" : String).data
            ++ prdText.data) ++ ("\n```" : String).data from by simp [String.data_append]]
      apply containsSubstrL_appR
      apply containsSubstrL_appR
      decide
  · show containsSubstrL ("**2. Figma Design Link (for UI/UX reference):**".data)
      (createPrompt prdText figmaLink imageCount focusPrompt).data = true
    rw [hdata]
    apply containsSubstrL_appR
    apply containsSubstrL_appR
    apply containsSubstrL_appR
    apply containsSubstrL_appL
    by_cases hl : figmaLink = ""
    · subst hl
      decide
    · rw [figmaSectionOf, if_pos hl,
        show (("**2. Figma Design Link (for UI/UX reference):**\n" ++ figmaLink)
            : String).data
          = ("**2. Figma Design Link (for UI/UX reference):**\n" : String).data
            ++ figmaLink.data from by simp [String.data_append]]
      apply containsSubstrL_appR
      decide
  · show containsSubstrL ("**3. Uploaded Images (".data)
      (createPrompt prdText figmaLink imageCount focusPrompt).data = true
    rw [hdata]
    apply containsSubstrL_appR
    apply containsSubstrL_appL
    by_cases hn : imageCount = 0
    · subst hn
      decide
    · rw [imageSectionOf, if_pos (Nat.pos_of_ne_zero hn),
        show (("**3. Uploaded Images (" ++ toString imageCount
            ++ ") (for UI/UX and functional reference):**\nImages have been provided. Analyze them in conjunction with other provided materials to understand the UI, layout, and functionality.") : String).data
          = (("**3. Uploaded Images (" : String).data ++ (toString imageCount).data)
            ++ ((") (for UI/UX and functional reference):**\nImages have been provided. Analyze them in conjunction with other provided materials to understand the UI, layout, and functionality." : String).data) from by simp [String.data_append]]
      apply containsSubstrL_appR
      exact containsSubstrL_self ..
  · intro hp
    subst hp
    show containsSubstrL
      ("**1. Product Requirements Document (PRD) Content:**\nNot provided.".data)
      (createPrompt "" figmaLink imageCount focusPrompt).data = true
    rw [hdata]
    apply containsSubstrL_appR
    apply containsSubstrL_appR
    apply containsSubstrL_appR
    apply containsSubstrL_appR
    apply containsSubstrL_appR
    apply containsSubstrL_appL
    decide
  · intro hl
    subst hl
    show containsSubstrL
      ("**2. Figma Design Link (for UI/UX reference):**\nNot provided.".data)
      (createPrompt prdText "" imageCount focusPrompt).data = true
    rw [hdata]
    apply containsSubstrL_appR
    apply containsSubstrL_appR
    apply containsSubstrL_appR
    apply containsSubstrL_appL
    decide
  · intro hn
    subst hn
    show containsSubstrL
      ("**3. Uploaded Images (for UI/UX and functional reference):**\nNot provided.".data)
      (createPrompt prdText figmaLink 0 focusPrompt).data = true
    rw [hdata]
    apply containsSubstrL_appR
    apply containsSubstrL_appL
    decide
  · intro hprd hcp hcf
    constructor
    · rw [countSub_marker_createPrompt prdText focusPrompt hprd, hcp, hcf]
    · show containsSubstrL prdText.data (createPrompt prdText "" 0 focusPrompt).data = true
      rw [hdata]
      apply containsSubstrL_appR
      apply containsSubstrL_appR
      apply containsSubstrL_appR
      apply containsSubstrL_appR
      apply containsSubstrL_appR
      apply containsSubstrL_appL
      rw [prdSectionOf, if_pos hprd,
        show (("**1. Product Requirements Document (PRD) Content:**\n```\n" ++ prdText
            ++ "\n```") : String).data
          = (("**1. Product Requirements Document (PRD) Content:**\n```\n" : String).data
            ++ prdText.data) ++ ("\n```" : String).data from by simp [String.data_append]]
      apply containsSubstrL_appR
      apply containsSubstrL_appL
      exact containsSubstrL_refl _

/-- Witness for the amended claim C8: a marker-free document text
yields exactly two `Not provided` occurrences and appears verbatim in
the prompt, and an empty document text yields the explicit marker
section. -/
theorem c8_marker_amended_witness :
    countSubS (createPrompt "Users can reset their password via email." "" 0 "")
      notProvidedMarker = 2
    ∧ containsSubstr (createPrompt "Users can reset their password via email." "" 0 "")
        "Users can reset their password via email." = true
    ∧ containsSubstr (createPrompt "" "" 0 "")
        "**1. Product Requirements Document (PRD) Content:**\nNot provided." = true :=
  ⟨((c8_marker_amended "Users can reset their password via email." "" 0 "").2.2.2.2
      (by decide) (by decide) (by decide)).1,
   ((c8_marker_amended "Users can reset their password via email." "" 0 "").2.2.2.2
      (by decide) (by decide) (by decide)).2,
   (c8_marker_amended "" "" 0 "").2.1 rfl⟩
